import Mathlib

/-!
Verification of the pru_db core storage engine against its specification.

The definitions below are a shallow embedding of the Rust sources:
  crates/pru_core/src/utils.rs      (crc32, uvarint codec)
  crates/pru_core/src/postings.rs   (postings codec, merge, intersect)
  crates/pru_core/src/segment.rs    (segment writer / reader)
  crates/pru_core/src/manifest.rs   (manifest, promotion)
  crates/pru_core/src/resolver_store.rs (resolver store)
  crates/pru_cli/src/main.rs        (compaction command)

Machine integers (u64/u32/usize) are modelled as Nat; wherever wrap-around
or a panic of the original is reachable it is modelled explicitly.
Byte strings are List Nat (each element < 256 where it matters).
-/

set_option maxHeartbeats 1000000

namespace Pru

/-! ## utils.rs -/

/-- One reflected CRC-32 (IEEE, polynomial 0xEDB88320) bit step. -/
def crc32_step_bit (c : Nat) : Nat :=
  if c % 2 = 1 then (c / 2) ^^^ 0xEDB88320 else c / 2

/-- Fold one input byte into the running CRC state. -/
def crc32_step_byte (c b : Nat) : Nat :=
  (List.range 8).foldl (fun acc _ => crc32_step_bit acc) (c ^^^ (b % 256))

/-- CRC-32 (IEEE): models `crc32fast::hash` used by `utils::crc32`
(reflected, init 0xFFFFFFFF, xor-out 0xFFFFFFFF). -/
def crc32 (data : List Nat) : Nat :=
  (data.foldl crc32_step_byte 0xFFFFFFFF) ^^^ 0xFFFFFFFF

/-- Little-endian 4-byte serialization of a u32, as `write_u32` emits it. -/
def u32_le_bytes (c : Nat) : List Nat :=
  [c % 256, c / 256 % 256, c / 65536 % 256, c / 16777216 % 256]

/-- Source `utils::uvarint_encode`: while n >= 0x80 push (n as u8)|0x80 and
shift right by 7; finally push n. -/
def uvarint_encode (n : Nat) : List Nat :=
  if _h : n ≥ 0x80 then ((n % 256) ||| 0x80) :: uvarint_encode (n >>> 7) else [n]
termination_by n
decreasing_by
  simp only [Nat.shiftRight_eq_div_pow]
  omega

/-- Totalization of the `utils::uvarint_decode` accumulation loop, used for
the reader-side codec on well-formed buffers. The branch returning `(x, [])`
is the point where the source, which indexes `data[0]` unconditionally,
panics on a buffer whose bytes all carry the continuation bit; the faithful
partial model is `uvarint_decode_aux_p` below (`none` = that index panic),
and on any buffer containing a terminator byte < 0x80 — in particular on
every encoder output — the two agree (`uvarint_decode_aux_p_stop`). The
compaction embedding uses the partial model. -/
def uvarint_decode_aux (x s : Nat) : List Nat → Nat × List Nat
  | [] => (x, [])
  | b :: rest =>
    if b < 0x80 then (x ||| (b <<< s), rest)
    else uvarint_decode_aux (x ||| ((b &&& 0x7F) <<< s)) (s + 7) rest

/-- Source `utils::uvarint_decode`. -/
def uvarint_decode (data : List Nat) : Nat × List Nat :=
  uvarint_decode_aux 0 0 data

/-- Faithful model of the `utils::uvarint_decode` loop: the source reads
`data[0]` unconditionally and then recurses on `data[1..]`, so a buffer
that runs out while every byte still has the continuation bit set
(>= 0x80) indexes an empty slice — a Rust panic, modelled as `none`. -/
def uvarint_decode_aux_p (x s : Nat) : List Nat → Option (Nat × List Nat)
  | [] => none
  | b :: rest =>
    if b < 0x80 then some (x ||| (b <<< s), rest)
    else uvarint_decode_aux_p (x ||| ((b &&& 0x7F) <<< s)) (s + 7) rest

/-- Source `utils::uvarint_decode`, with the index panic made explicit. -/
def uvarint_decode_p (data : List Nat) : Option (Nat × List Nat) :=
  uvarint_decode_aux_p 0 0 data

theorem uvarint_decode_aux_length (l : List Nat) :
    ∀ x s, (uvarint_decode_aux x s l).2.length ≤ l.length - 1 := by
  induction l with
  | nil => intro x s; simp [uvarint_decode_aux]
  | cons b rest ih =>
    intro x s
    simp only [uvarint_decode_aux]
    split
    · simp
    · have h := ih (x ||| ((b &&& 0x7F) <<< s)) (s + 7)
      simp only [List.length_cons]
      omega

theorem uvarint_decode_aux_p_length (l : List Nat) :
    ∀ x s r, uvarint_decode_aux_p x s l = some r → r.2.length < l.length := by
  induction l with
  | nil =>
    intro x s r h
    simp [uvarint_decode_aux_p] at h
  | cons b rest ih =>
    intro x s r h
    simp only [uvarint_decode_aux_p] at h
    split at h
    · cases h
      simp
    · have := ih _ _ _ h
      simp only [List.length_cons]
      omega

theorem uvarint_decode_p_length (buf : List Nat) (r : Nat × List Nat)
    (h : uvarint_decode_p buf = some r) : r.2.length < buf.length :=
  uvarint_decode_aux_p_length buf 0 0 r h

/-- On a buffer containing a terminator byte (< 0x80) the `uvarint_decode`
loop stays in bounds, and the partial model agrees with the totalization. -/
theorem uvarint_decode_aux_p_stop (l : List Nat) :
    ∀ x s, (∃ b ∈ l, b < 0x80) →
      uvarint_decode_aux_p x s l = some (uvarint_decode_aux x s l) := by
  induction l with
  | nil =>
    intro x s h
    simp at h
  | cons b rest ih =>
    intro x s h
    by_cases hb : b < 0x80
    · simp only [uvarint_decode_aux_p, uvarint_decode_aux, if_pos hb]
    · have hrest : ∃ c ∈ rest, c < 0x80 := by
        obtain ⟨c, hc, hlt⟩ := h
        rcases List.mem_cons.mp hc with rfl | hc'
        · omega
        · exact ⟨c, hc', hlt⟩
      simp only [uvarint_decode_aux_p, uvarint_decode_aux, if_neg hb]
      exact ih _ _ hrest

/-! ## postings.rs -/

/-- The delta-encoding loop of `encode_sorted_u64`, with running `prev`.
Each step emits the varint of `n - prev` (u64 subtraction; the codec is
specified for non-decreasing input only) and sets `prev := n`. -/
def encode_sorted_go (prev : Nat) : List Nat → List Nat
  | [] => []
  | n :: rest => uvarint_encode (n - prev) ++ encode_sorted_go n rest

/-- Source `postings::encode_sorted_u64` (prev starts at 0). -/
def encode_sorted_u64 (nums : List Nat) : List Nat :=
  encode_sorted_go 0 nums

/-- The running-sum loop of `decode_sorted_u64`: while the buffer is
non-empty, decode a varint, add it to `prev`, push `prev`. -/
def decode_sorted_go (buf : List Nat) (prev : Nat) : List Nat :=
  if h : buf = [] then []
  else
    let r := uvarint_decode buf
    have hlen : r.2.length < buf.length := by
      have := uvarint_decode_aux_length buf 0 0
      have hne : 0 < buf.length := List.length_pos.mpr h
      simpa [uvarint_decode, r] using by omega
    (prev + r.1) :: decode_sorted_go r.2 (prev + r.1)
termination_by buf.length

/-- Source `postings::decode_sorted_u64`. -/
def decode_sorted_u64 (buf : List Nat) : List Nat :=
  decode_sorted_go buf 0

/-- Faithful model of the `decode_sorted_u64` loop: each iteration calls
`uvarint_decode`, whose index panic on a chunk with no terminator byte
propagates as `none`; otherwise it advances exactly as `decode_sorted_go`. -/
def decode_sorted_go_p (buf : List Nat) (prev : Nat) : Option (List Nat) :=
  if _hbuf : buf = [] then some []
  else
    match hm : uvarint_decode_p buf with
    | none => none
    | some r =>
      have hlen : r.2.length < buf.length := uvarint_decode_p_length buf r hm
      (decode_sorted_go_p r.2 (prev + r.1)).map (fun tl => (prev + r.1) :: tl)
termination_by buf.length

/-- Source `postings::decode_sorted_u64` with the uvarint panic explicit. -/
def decode_sorted_u64_p (buf : List Nat) : Option (List Nat) :=
  decode_sorted_go_p buf 0

/-- Source `postings::merge_sorted`: two-finger merge. When `j == b.len()`
or (`i < a.len()` and `a[i] <= b[j]`) it pushes from `a`, else from `b`. -/
def merge_sorted (a b : List Nat) : List Nat :=
  match a, b with
  | [], [] => []
  | x :: xs, [] => x :: merge_sorted xs []
  | [], y :: ys => y :: merge_sorted [] ys
  | x :: xs, y :: ys =>
    if x ≤ y then x :: merge_sorted xs (y :: ys)
    else y :: merge_sorted (x :: xs) ys
termination_by a.length + b.length
decreasing_by all_goals simp_arith

/-- Source `postings::intersect_sorted`: two-finger intersection, emits on
equality, no deduplication. -/
def intersect_sorted (a b : List Nat) : List Nat :=
  match a, b with
  | x :: xs, y :: ys =>
    if x = y then x :: intersect_sorted xs ys
    else if x < y then intersect_sorted xs (y :: ys)
    else intersect_sorted (x :: xs) ys
  | _, _ => []
termination_by a.length + b.length
decreasing_by all_goals simp_arith

/-! ## Merge correctness (C7) -/

theorem merge_sorted_perm (a b : List Nat) : (merge_sorted a b).Perm (a ++ b) := by
  induction a, b using merge_sorted.induct with
  | case1 => simp [merge_sorted]
  | case2 x xs ih => simpa [merge_sorted] using ih.cons x
  | case3 y ys ih => simpa [merge_sorted] using ih.cons y
  | case4 x xs y ys hle ih =>
    simp only [merge_sorted, if_pos hle]
    exact (ih.cons x).trans (by simp)
  | case5 x xs y ys hle ih =>
    simp only [merge_sorted, if_neg hle]
    refine (ih.cons y).trans ?_
    exact (List.perm_middle).symm

theorem merge_sorted_mem {a b : List Nat} {z : Nat} :
    z ∈ merge_sorted a b ↔ z ∈ a ∨ z ∈ b := by
  rw [(merge_sorted_perm a b).mem_iff, List.mem_append]

theorem merge_sorted_sorted (a b : List Nat)
    (ha : a.Sorted (· ≤ ·)) (hb : b.Sorted (· ≤ ·)) :
    (merge_sorted a b).Sorted (· ≤ ·) := by
  induction a, b using merge_sorted.induct with
  | case1 => simp [merge_sorted]
  | case2 x xs ih =>
    rw [List.sorted_cons] at ha
    simp only [merge_sorted, List.sorted_cons]
    refine ⟨fun z hz => ?_, ih ha.2 hb⟩
    rcases merge_sorted_mem.mp hz with h | h
    · exact ha.1 z h
    · simp at h
  | case3 y ys ih =>
    rw [List.sorted_cons] at hb
    simp only [merge_sorted, List.sorted_cons]
    refine ⟨fun z hz => ?_, ih ha hb.2⟩
    rcases merge_sorted_mem.mp hz with h | h
    · simp at h
    · exact hb.1 z h
  | case4 x xs y ys hle ih =>
    rw [List.sorted_cons] at ha
    simp only [merge_sorted, if_pos hle, List.sorted_cons]
    refine ⟨fun z hz => ?_, ih ha.2 hb⟩
    rcases merge_sorted_mem.mp hz with h | h
    · exact ha.1 z h
    · rcases List.mem_cons.mp h with rfl | h
      · exact hle
      · exact le_trans hle ((List.sorted_cons.mp hb).1 z h)
  | case5 x xs y ys hle ih =>
    rw [List.sorted_cons] at hb
    simp only [merge_sorted, if_neg hle, List.sorted_cons]
    have hyx : y ≤ x := le_of_not_le hle
    refine ⟨fun z hz => ?_, ih ha hb.2⟩
    rcases merge_sorted_mem.mp hz with h | h
    · rcases List.mem_cons.mp h with rfl | h
      · exact hyx
      · exact le_trans hyx ((List.sorted_cons.mp ha).1 z h)
    · exact hb.1 z h

/-- C7: for all sorted (non-decreasing) u64 slices a and b, merge_sorted a b
is sorted and its multiset of elements is the multiset sum of a and b
(duplicates across inputs are preserved; it is not a set union). -/
theorem C7_merge_sorted_correct (a b : List Nat)
    (ha : a.Sorted (· ≤ ·)) (hb : b.Sorted (· ≤ ·)) :
    (merge_sorted a b).Sorted (· ≤ ·) ∧
      (merge_sorted a b : Multiset Nat) = (a : Multiset Nat) + (b : Multiset Nat) := by
  refine ⟨merge_sorted_sorted a b ha hb, ?_⟩
  have h : (merge_sorted a b : Multiset Nat) = ((a ++ b : List Nat) : Multiset Nat) :=
    Multiset.coe_eq_coe.mpr (merge_sorted_perm a b)
  simpa using h

/-- Witness for C7 at a = [1,3,5], b = [3,4]; note 3 occurs in the output
twice, once per occurrence across the inputs. -/
theorem C7_merge_sorted_correct_witness :
    ([1,3,5] : List Nat).Sorted (· ≤ ·) ∧ ([3,4] : List Nat).Sorted (· ≤ ·) ∧
      ((merge_sorted [1,3,5] [3,4]).Sorted (· ≤ ·) ∧
        (merge_sorted [1,3,5] [3,4] : Multiset Nat) =
          (([1,3,5] : List Nat) : Multiset Nat) + (([3,4] : List Nat) : Multiset Nat)) :=
  ⟨by decide, by decide, C7_merge_sorted_correct [1,3,5] [3,4] (by decide) (by decide)⟩

/-! ## Postings roundtrip (C8) -/

theorem lor_shiftLeft_eq_add (s : Nat) :
    ∀ x b : Nat, x < 2 ^ s → x ||| (b <<< s) = x + b <<< s := by
  induction s with
  | zero =>
    intro x b hx
    have hx0 : x = 0 := by omega
    subst hx0
    simp
  | succ s ih =>
    intro x b hx
    have hx' : x >>> 1 < 2 ^ s := by
      rw [Nat.shiftRight_one]
      rw [pow_succ] at hx
      omega
    have hdecomp : 2 * (x >>> 1) + (decide (x % 2 = 1)).toNat = x := by
      have h := Nat.bit_decide_mod_two_eq_one_shiftRight_one x
      rwa [Nat.bit_val] at h
    have h2 : b <<< (s + 1) = 2 * (b <<< s) := by
      simp only [Nat.shiftLeft_eq, pow_succ]
      ring
    have hbit : b <<< (s + 1) = Nat.bit false (b <<< s) := by
      rw [Nat.bit_val, h2]
      simp
    calc x ||| b <<< (s + 1)
        = Nat.bit (decide (x % 2 = 1)) (x >>> 1) ||| Nat.bit false (b <<< s) := by
          rw [Nat.bit_decide_mod_two_eq_one_shiftRight_one x, hbit]
      _ = Nat.bit (decide (x % 2 = 1) || false) ((x >>> 1) ||| (b <<< s)) :=
          Nat.lor_bit _ _ _ _
      _ = Nat.bit (decide (x % 2 = 1)) ((x >>> 1) + b <<< s) := by
          rw [Bool.or_false, ih _ _ hx']
      _ = x + b <<< (s + 1) := by
          rw [Nat.bit_val, h2]
          calc 2 * (x >>> 1 + b <<< s) + (decide (x % 2 = 1)).toNat
              = (2 * (x >>> 1) + (decide (x % 2 = 1)).toNat) + 2 * (b <<< s) := by
                ring
            _ = x + 2 * (b <<< s) := by rw [hdecomp]

theorem and_two_pow_sub_one (x k : Nat) : x &&& (2 ^ k - 1) = x % 2 ^ k := by
  apply Nat.eq_of_testBit_eq
  intro i
  rw [Nat.testBit_and, Nat.testBit_mod_two_pow, Nat.testBit_two_pow_sub_one]
  exact Bool.and_comm _ _

theorem uvarint_encode_ne_nil (n : Nat) : uvarint_encode n ≠ [] := by
  rw [uvarint_encode]
  split <;> simp

theorem uvarint_decode_aux_round (d : Nat) :
    ∀ x s rest, x < 2 ^ s →
      uvarint_decode_aux x s (uvarint_encode d ++ rest) = (x + d * 2 ^ s, rest) := by
  induction d using Nat.strong_induction_on with
  | _ d ih =>
    intro x s rest hx
    rw [uvarint_encode]
    by_cases hd : d ≥ 0x80
    · rw [dif_pos hd, List.cons_append]
      have hb : ¬ ((d % 256) ||| 0x80) < 0x80 := by
        have hbit : ((d % 256) ||| 0x80).testBit 7 = true := by
          rw [Nat.testBit_or]
          have h80 : (0x80 : Nat).testBit 7 = true := by decide
          simp [h80]
        have hge := Nat.testBit_implies_ge hbit
        norm_num at hge
        omega
      rw [uvarint_decode_aux, if_neg hb]
      have hmask : ((d % 256) ||| 0x80) &&& 0x7F = d % 128 := by
        have h1 : ((d % 256) ||| 0x80) &&& 0x7F = ((d % 256) &&& 0x7F) ||| (0x80 &&& 0x7F) := by
          apply Nat.eq_of_testBit_eq
          intro i
          simp [Nat.testBit_or, Nat.testBit_and, Bool.and_or_distrib_right]
        have h2 : (0x80 : Nat) &&& 0x7F = 0 := by decide
        have h3 : (d % 256) &&& 0x7F = d % 128 := by
          have h := and_two_pow_sub_one (d % 256) 7
          norm_num at h
          exact h
        rw [h1, h2, h3, Nat.or_zero]
      rw [hmask]
      have hor : x ||| (d % 128) <<< s = x + (d % 128) <<< s :=
        lor_shiftLeft_eq_add s x (d % 128) hx
      rw [hor]
      have hx7 : x + (d % 128) <<< s < 2 ^ (s + 7) := by
        rw [Nat.shiftLeft_eq]
        have h128 : d % 128 < 128 := Nat.mod_lt _ (by norm_num)
        have hpow : (2 : Nat) ^ (s + 7) = 2 ^ s * 128 := by
          rw [pow_add]; norm_num
        have hmul : (d % 128) * 2 ^ s ≤ 127 * 2 ^ s :=
          Nat.mul_le_mul_right _ (by omega)
        omega
      have hrec := ih (d >>> 7) (by
        rw [Nat.shiftRight_eq_div_pow]
        have : (0 : Nat) < 2 ^ 7 := by norm_num
        exact Nat.div_lt_self (by omega) (by norm_num)) _ _ rest hx7
      rw [hrec]
      congr 1
      rw [Nat.shiftLeft_eq, Nat.shiftRight_eq_div_pow]
      have hsplit : d = 128 * (d / 128) + d % 128 := (Nat.div_add_mod d 128).symm
      have hpow : (2 : Nat) ^ (s + 7) = 2 ^ s * 128 := by
        rw [pow_add]; norm_num
      calc x + d % 128 * 2 ^ s + d / 2 ^ 7 * 2 ^ (s + 7)
          = x + d % 128 * 2 ^ s + d / 128 * (2 ^ s * 128) := by
            norm_num [hpow]
        _ = x + (128 * (d / 128) + d % 128) * 2 ^ s := by ring
        _ = x + d * 2 ^ s := by rw [← hsplit]
    · rw [dif_neg hd, List.cons_append]
      have hdlt : d < 0x80 := by omega
      rw [uvarint_decode_aux, if_pos hdlt]
      rw [lor_shiftLeft_eq_add s x d hx, Nat.shiftLeft_eq]
      simp

theorem uvarint_round (d : Nat) (rest : List Nat) :
    uvarint_decode (uvarint_encode d ++ rest) = (d, rest) := by
  have h := uvarint_decode_aux_round d 0 0 rest (by norm_num)
  simpa [uvarint_decode] using h

/-- Every encoder output ends in a terminator byte (< 0x80), so decoding an
encoder output never runs past the buffer. -/
theorem uvarint_encode_has_stop (n : Nat) : ∃ b ∈ uvarint_encode n, b < 0x80 := by
  induction n using Nat.strong_induction_on with
  | _ n ih =>
    rw [uvarint_encode]
    by_cases hn : n ≥ 0x80
    · rw [dif_pos hn]
      obtain ⟨b, hb, hlt⟩ := ih (n >>> 7) (by
        rw [Nat.shiftRight_eq_div_pow]
        exact Nat.div_lt_self (by omega) (by norm_num))
      exact ⟨b, List.mem_cons_of_mem _ hb, hlt⟩
    · rw [dif_neg hn]
      exact ⟨n, List.mem_singleton.mpr rfl, by omega⟩

theorem uvarint_round_p (d : Nat) (rest : List Nat) :
    uvarint_decode_p (uvarint_encode d ++ rest) = some (d, rest) := by
  have hstop : ∃ b ∈ uvarint_encode d ++ rest, b < 0x80 := by
    obtain ⟨b, hb, hlt⟩ := uvarint_encode_has_stop d
    exact ⟨b, List.mem_append_left _ hb, hlt⟩
  have h := uvarint_decode_aux_p_stop (uvarint_encode d ++ rest) 0 0 hstop
  have hr := uvarint_round d rest
  rw [uvarint_decode] at hr
  rw [uvarint_decode_p, h, hr]

theorem decode_go_p_nil (prev : Nat) : decode_sorted_go_p [] prev = some [] := by
  rw [decode_sorted_go_p]
  rfl

theorem decode_go_p_panic (buf : List Nat) (prev : Nat) (h : buf ≠ [])
    (hm : uvarint_decode_p buf = none) : decode_sorted_go_p buf prev = none := by
  rw [decode_sorted_go_p, dif_neg h]
  split
  · rfl
  · rename_i r heq
    rw [hm] at heq
    cases heq

theorem decode_go_p_step (buf : List Nat) (prev d : Nat) (r : List Nat)
    (h : buf ≠ []) (hm : uvarint_decode_p buf = some (d, r)) :
    decode_sorted_go_p buf prev =
      (decode_sorted_go_p r (prev + d)).map (fun tl => (prev + d) :: tl) := by
  rw [decode_sorted_go_p, dif_neg h]
  split
  · rename_i heq
    rw [hm] at heq
    cases heq
  · rename_i r' heq
    rw [hm] at heq
    cases heq
    rfl

theorem decode_sorted_go_cons (d : Nat) (rest : List Nat) (prev : Nat) :
    decode_sorted_go (uvarint_encode d ++ rest) prev =
      (prev + d) :: decode_sorted_go rest (prev + d) := by
  rw [decode_sorted_go]
  have hne : uvarint_encode d ++ rest ≠ [] := by
    simp [uvarint_encode_ne_nil d]
  simp only [hne, dite_false, uvarint_round d rest]

theorem decode_encode_go (xs : List Nat) :
    ∀ prev, List.Chain' (· ≤ ·) xs → (∀ y, xs.head? = some y → prev ≤ y) →
      decode_sorted_go (encode_sorted_go prev xs) prev = xs := by
  induction xs with
  | nil => intro prev _ _; simp [encode_sorted_go, decode_sorted_go]
  | cons n rest ih =>
    intro prev hchain hhead
    simp only [encode_sorted_go]
    rw [decode_sorted_go_cons]
    have hpn : prev ≤ n := hhead n rfl
    have hn : prev + (n - prev) = n := by omega
    rw [hn]
    congr 1
    rcases List.chain'_cons'.mp hchain with ⟨hhd, htl⟩
    exact ih n htl (fun y hy => hhd y hy)

/-- The faithful partial decoder succeeds on every encoder output (each
chunk of which carries a terminator byte) and returns the encoded list. -/
theorem decode_encode_go_p (xs : List Nat) :
    ∀ prev, List.Chain' (· ≤ ·) xs → (∀ y, xs.head? = some y → prev ≤ y) →
      decode_sorted_go_p (encode_sorted_go prev xs) prev = some xs := by
  induction xs with
  | nil => intro prev _ _; simp [encode_sorted_go, decode_go_p_nil]
  | cons n rest ih =>
    intro prev hchain hhead
    simp only [encode_sorted_go]
    rw [decode_go_p_step (uvarint_encode (n - prev) ++ encode_sorted_go n rest) prev
      (n - prev) (encode_sorted_go n rest)
      (by simp [uvarint_encode_ne_nil (n - prev)])
      (uvarint_round_p (n - prev) (encode_sorted_go n rest))]
    have hpn : prev ≤ n := hhead n rfl
    have hn : prev + (n - prev) = n := by omega
    rw [hn]
    rcases List.chain'_cons'.mp hchain with ⟨hhd, htl⟩
    rw [ih n htl (fun y hy => hhd y hy)]
    rfl

theorem decode_p_of_encode (xs : List Nat) (hle : List.Chain' (· ≤ ·) xs) :
    decode_sorted_u64_p (encode_sorted_u64 xs) = some xs :=
  decode_encode_go_p xs 0 hle (fun y _ => Nat.zero_le y)

/-- C8: for every strictly increasing sequence of u64 values,
decode_sorted_u64 (encode_sorted_u64 xs) = xs. -/
theorem C8_postings_roundtrip (xs : List Nat)
    (hinc : List.Chain' (· < ·) xs) (hbound : ∀ x ∈ xs, x < 2 ^ 64) :
    decode_sorted_u64 (encode_sorted_u64 xs) = xs := by
  unfold decode_sorted_u64 encode_sorted_u64
  exact decode_encode_go xs 0 (hinc.imp (fun _ _ h => le_of_lt h))
    (fun y _ => Nat.zero_le y)

/-- Witness for C8 at xs = [1, 200, 93000]. -/
theorem C8_postings_roundtrip_witness :
    List.Chain' (· < ·) ([1, 200, 93000] : List Nat) ∧
      (∀ x ∈ ([1, 200, 93000] : List Nat), x < 2 ^ 64) ∧
      decode_sorted_u64 (encode_sorted_u64 [1, 200, 93000]) = [1, 200, 93000] :=
  ⟨by norm_num [List.chain'_cons], by decide,
    C8_postings_roundtrip [1, 200, 93000] (by norm_num [List.chain'_cons]) (by decide)⟩

/-! ## manifest.rs -/

/-- Source `consts::SegmentKind`. -/
inductive SegmentKind where
  | Dict
  | Fact
  | Resolver
deriving DecidableEq, Repr

/-- Source `manifest::SegmentRec` (PathBuf modelled as String; the manifest
stores plain relative file names, for which PathBuf ordering and equality
coincide with byte-wise string ordering). -/
structure SegmentRec where
  kind : SegmentKind
  path : String
deriving DecidableEq, Repr

/-- Source `manifest::Manifest`. -/
structure Manifest where
  segments : List SegmentRec
  active_paths : List String
  archived_paths : List String
deriving DecidableEq, Repr

/-- Step 1 of `promote_resolver_compact`: the resolver segments. -/
def resolverSegs (m : Manifest) : List SegmentRec :=
  m.segments.filter (fun s => decide (s.kind = SegmentKind.Resolver))

/-- Step 2: `resolver.sort_by_key(|s| s.path.clone())` (stable sort by path). -/
def sortedResolverSegs (m : Manifest) : List SegmentRec :=
  (resolverSegs m).mergeSort (fun a b => decide (a.path ≤ b.path))

/-- Step 2 continued: the scan recording the last segment (in sorted order)
whose path starts with "resolver-compact-". -/
def lastCompactSeg (m : Manifest) : Option SegmentRec :=
  (sortedResolverSegs m).foldl
    (fun acc s => if s.path.startsWith "resolver-compact-" then some s else acc) none

/-- The chosen winner: the last compact segment if any, else the last sorted
resolver segment (`resolver.last().unwrap()`; the `.getD` default is
unreachable because the caller checks the resolver list is non-empty). -/
def chosenSeg (m : Manifest) : SegmentRec :=
  match lastCompactSeg m with
  | some s => s
  | none => (sortedResolverSegs m).getLast?.getD ⟨SegmentKind.Resolver, ""⟩

/-- Step 3: the kept non-resolver paths (`keep` before the winner is pushed).
If `active_paths` is empty all non-resolver segment paths are kept, otherwise
the non-resolver segments whose path is in `active_paths` (the source builds
a `HashSet` of active paths; membership is the same predicate). -/
def keepPaths (m : Manifest) : List String :=
  if m.active_paths.isEmpty then
    (m.segments.filter (fun s => decide (¬ s.kind = SegmentKind.Resolver))).map (·.path)
  else
    (m.segments.filter (fun s =>
      decide (¬ s.kind = SegmentKind.Resolver) && decide (s.path ∈ m.active_paths))).map (·.path)

/-- Source `Manifest::promote_resolver_compact`; returns the new manifest and
the `Ok(_)` payload (0 when there are no resolver segments, else 1). -/
def promote_resolver_compact (m : Manifest) : Manifest × Nat :=
  if (resolverSegs m).isEmpty then (m, 0)
  else
    (⟨m.segments,
      keepPaths m ++ [(chosenSeg m).path],
      (m.segments.map (·.path)).filter
        (fun p => decide (¬ p ∈ keepPaths m ++ [(chosenSeg m).path]))⟩, 1)

/-- Source `Manifest::active_segment_paths`: if `active_paths` is empty all
segment paths, else the segments whose path appears in `active_paths`. -/
def active_segment_paths (m : Manifest) : List String :=
  if m.active_paths.isEmpty then m.segments.map (·.path)
  else (m.segments.filter (fun s => decide (s.path ∈ m.active_paths))).map (·.path)

/-! ### Helper lemmas for promotion -/

theorem foldl_choice {α : Type} (P : α → Bool) (l : List α) :
    ∀ init : Option α,
      l.foldl (fun acc s => if P s then some s else acc) init =
        ((l.filter P).getLast?).or init := by
  induction l with
  | nil => intro init; simp
  | cons a l ih =>
    intro init
    rw [List.foldl_cons, ih]
    by_cases hP : P a
    · simp only [hP, if_pos, List.filter_cons_of_pos hP]
      cases hfl : (l.filter P).getLast? with
      | none =>
        rcases List.getLast?_eq_none_iff.mp hfl with hnil
        simp [hnil]
      | some c =>
        have hne : l.filter P ≠ [] := by
          intro hnil
          rw [hnil] at hfl
          simp at hfl
        rcases List.exists_cons_of_ne_nil hne with ⟨b, t, hbt⟩
        have hlast : (a :: l.filter P).getLast? = some c := by
          rw [hbt]
          rw [hbt] at hfl
          rwa [List.getLast?_cons_cons]
        simp [hfl, hlast]
    · have hP' : P a = false := by simpa using hP
      simp [hP', List.filter_cons_of_neg]

theorem pairwise_getLast?_max {α : Type} {R : α → α → Prop} :
    ∀ {l : List α}, l.Pairwise R → ∀ {c : α}, l.getLast? = some c →
      ∀ x ∈ l, x = c ∨ R x c := by
  intro l
  induction l with
  | nil => intro _ c hc; simp at hc
  | cons a t ih =>
    intro hp c hc x hx
    cases t with
    | nil =>
      simp at hc hx
      subst hc; subst hx; exact Or.inl rfl
    | cons b t' =>
      rw [List.getLast?_cons_cons] at hc
      rcases List.mem_cons.mp hx with rfl | hxt
      · right
        have hcmem : c ∈ b :: t' := List.mem_of_getLast?_eq_some hc
        exact (List.pairwise_cons.mp hp).1 c hcmem
      · exact ih (List.pairwise_cons.mp hp).2 hc x hxt

theorem sortedResolverSegs_pairwise (m : Manifest) :
    (sortedResolverSegs m).Pairwise (fun a b => a.path ≤ b.path) := by
  have h : ((resolverSegs m).mergeSort
        (fun a b : SegmentRec => decide (a.path ≤ b.path))).Pairwise
          (fun a b : SegmentRec => (decide (a.path ≤ b.path)) = true) :=
    List.sorted_mergeSort
      (fun a b c hab hbc => by
        simp only [decide_eq_true_eq] at *
        exact le_trans hab hbc)
      (fun a b => by
        simpa using le_total a.path b.path)
      (resolverSegs m)
  unfold sortedResolverSegs
  exact List.Pairwise.imp (by intro a b hab; simpa using hab) h

theorem sortedResolverSegs_perm (m : Manifest) :
    (sortedResolverSegs m).Perm (resolverSegs m) :=
  List.mergeSort_perm (resolverSegs m) _

/-! ### Spec-side vocabulary for promotion (章 4.F of the spec) -/

/-- The paths of the resolver segments. -/
def resolverPaths (m : Manifest) : List String :=
  (resolverSegs m).map (·.path)

/-- The resolver paths that begin with "resolver-compact-". -/
def compactPaths (m : Manifest) : List String :=
  (resolverPaths m).filter (fun p => p.startsWith "resolver-compact-")

/-- w is the lexicographically greatest element of S. -/
def lexGreatest (w : String) (S : List String) : Prop :=
  w ∈ S ∧ ∀ p ∈ S, p ≤ w

/-- The winner the spec describes: the lexicographically greatest
"resolver-compact-" path if any exists, else the lexicographically greatest
resolver path. -/
def specWinner (m : Manifest) (w : String) : Prop :=
  if compactPaths m = [] then lexGreatest w (resolverPaths m)
  else lexGreatest w (compactPaths m)

/-- The currently-active non-resolver paths, in the spec's words: the paths
of non-resolver segments that are in the active set (`active_segment_paths`,
with its empty-means-all compatibility rule). -/
def specActiveNonResolver (m : Manifest) : List String :=
  (m.segments.filter (fun s =>
    decide (¬ s.kind = SegmentKind.Resolver) &&
      decide (s.path ∈ active_segment_paths m))).map (·.path)

theorem lastCompactSeg_eq (m : Manifest) :
    lastCompactSeg m =
      ((sortedResolverSegs m).filter
        (fun s => s.path.startsWith "resolver-compact-")).getLast? := by
  unfold lastCompactSeg
  rw [foldl_choice]
  exact Option.or_none

theorem compactPaths_eq (m : Manifest) :
    compactPaths m =
      ((resolverSegs m).filter
        (fun s => s.path.startsWith "resolver-compact-")).map (·.path) := by
  unfold compactPaths resolverPaths
  rw [List.filter_map]
  rfl

theorem chosenSeg_spec (m : Manifest) (hne : resolverSegs m ≠ []) :
    chosenSeg m ∈ resolverSegs m ∧ specWinner m (chosenSeg m).path := by
  have hperm := sortedResolverSegs_perm m
  have hpw := sortedResolverSegs_pairwise m
  have hcp := compactPaths_eq m
  cases hl : ((sortedResolverSegs m).filter
      (fun s => s.path.startsWith "resolver-compact-")).getLast? with
  | some c =>
    have hchosen : chosenSeg m = c := by
      unfold chosenSeg
      rw [lastCompactSeg_eq, hl]
    have hcmemf : c ∈ (sortedResolverSegs m).filter
        (fun s => s.path.startsWith "resolver-compact-") :=
      List.mem_of_getLast?_eq_some hl
    have hcmem : c ∈ resolverSegs m :=
      hperm.mem_iff.mp (List.mem_of_mem_filter hcmemf)
    have hfperm := hperm.filter (fun s => s.path.startsWith "resolver-compact-")
    have hcne : compactPaths m ≠ [] := by
      rw [hcp]
      intro h0
      have hfe : (resolverSegs m).filter
          (fun s => s.path.startsWith "resolver-compact-") = [] :=
        List.map_eq_nil_iff.mp h0
      have hmem := hfperm.mem_iff.mp hcmemf
      rw [hfe] at hmem
      simp at hmem
    refine ⟨hchosen ▸ hcmem, ?_⟩
    unfold specWinner
    rw [if_neg hcne]
    constructor
    · rw [hchosen, hcp]
      exact List.mem_map_of_mem _ (hfperm.mem_iff.mp hcmemf)
    · intro p hp
      rw [hcp] at hp
      rcases List.mem_map.mp hp with ⟨x, hx, rfl⟩
      have hx' : x ∈ (sortedResolverSegs m).filter
          (fun s => s.path.startsWith "resolver-compact-") :=
        hfperm.mem_iff.mpr hx
      have hpwf := hpw.filter (fun s => s.path.startsWith "resolver-compact-")
      rcases pairwise_getLast?_max hpwf hl x hx' with rfl | hle
      · rw [hchosen]
      · rw [hchosen]; exact hle
  | none =>
    have hfnil : (sortedResolverSegs m).filter
        (fun s => s.path.startsWith "resolver-compact-") = [] :=
      List.getLast?_eq_none_iff.mp hl
    have hsne : sortedResolverSegs m ≠ [] := by
      intro h0
      apply hne
      have hp2 := hperm
      rw [h0] at hp2
      exact hp2.symm.eq_nil
    cases hgl : (sortedResolverSegs m).getLast? with
    | none => exact absurd (List.getLast?_eq_none_iff.mp hgl) hsne
    | some c =>
      have hchosen : chosenSeg m = c := by
        unfold chosenSeg
        rw [lastCompactSeg_eq, hl]
        simp [hgl]
      have hcmem : c ∈ resolverSegs m :=
        hperm.mem_iff.mp (List.mem_of_getLast?_eq_some hgl)
      have hcnil : compactPaths m = [] := by
        rw [hcp]
        have hfperm := hperm.filter (fun s => s.path.startsWith "resolver-compact-")
        rw [hfnil] at hfperm
        rw [hfperm.symm.eq_nil]
        rfl
      refine ⟨hchosen ▸ hcmem, ?_⟩
      unfold specWinner
      rw [if_pos hcnil]
      constructor
      · unfold resolverPaths
        rw [hchosen]
        exact List.mem_map_of_mem _ hcmem
      · intro p hp
        unfold resolverPaths at hp
        rcases List.mem_map.mp hp with ⟨x, hx, rfl⟩
        have hx' : x ∈ sortedResolverSegs m := hperm.mem_iff.mpr hx
        rcases pairwise_getLast?_max hpw hgl x hx' with rfl | hle
        · rw [hchosen]
        · rw [hchosen]; exact hle

theorem keepPaths_eq_spec (m : Manifest) : keepPaths m = specActiveNonResolver m := by
  unfold keepPaths specActiveNonResolver active_segment_paths
  by_cases hae : m.active_paths.isEmpty
  · rw [if_pos hae, if_pos hae]
    congr 1
    apply List.filter_congr
    intro s hs
    have hmem : s.path ∈ m.segments.map (·.path) := List.mem_map_of_mem _ hs
    simp [hmem]
  · rw [if_neg hae, if_neg hae]
    congr 1
    apply List.filter_congr
    intro s hs
    by_cases hk : s.kind = SegmentKind.Resolver
    · simp [hk]
    · have hiff : (s.path ∈ (m.segments.filter
            (fun t => decide (t.path ∈ m.active_paths))).map (·.path)) ↔
          s.path ∈ m.active_paths := by
        constructor
        · intro h
          rcases List.mem_map.mp h with ⟨t, ht, hpt⟩
          have := List.of_mem_filter ht
          rw [← hpt]
          simpa using this
        · intro h
          exact List.mem_map_of_mem _ (List.mem_filter.mpr ⟨hs, by simpa using h⟩)
      simp [hk, hiff]

/-- C5: promotion selects the winner and partitions the manifest. With at
least one resolver segment, promotion returns 1, keeps the segment list,
rebuilds active_paths as the currently-active non-resolver paths plus exactly
one resolver path (the lexicographically greatest "resolver-compact-" path if
any exists, else the lexicographically greatest resolver path), and sets
archived_paths to every segment path not in the new active set. With no
resolver segment it returns 0 and leaves the manifest unchanged. -/
theorem C5_promotion_selects_winner (m : Manifest) :
    (resolverSegs m = [] → promote_resolver_compact m = (m, 0)) ∧
    (resolverSegs m ≠ [] →
      (promote_resolver_compact m).2 = 1 ∧
      (promote_resolver_compact m).1.segments = m.segments ∧
      ∃ w : String, specWinner m w ∧
        (promote_resolver_compact m).1.active_paths = specActiveNonResolver m ++ [w] ∧
        (promote_resolver_compact m).1.archived_paths =
          (m.segments.map (·.path)).filter
            (fun p => decide (¬ p ∈ specActiveNonResolver m ++ [w]))) := by
  constructor
  · intro h
    unfold promote_resolver_compact
    rw [if_pos (by simp [List.isEmpty_iff, h])]
  · intro h
    have hif : ¬ ((resolverSegs m).isEmpty = true) := by
      simpa [List.isEmpty_iff] using h
    unfold promote_resolver_compact
    rw [if_neg hif]
    exact ⟨rfl, rfl, (chosenSeg m).path, (chosenSeg_spec m h).2,
      by rw [keepPaths_eq_spec], by rw [keepPaths_eq_spec]⟩

/-- Concrete manifest for the C5 witness: one resolver segment. -/
def mWitC5 : Manifest :=
  ⟨[⟨SegmentKind.Resolver, "resolver-a.prus"⟩], [], []⟩

/-- Witness for C5 at a one-resolver-segment manifest. -/
theorem C5_promotion_selects_winner_witness :
    resolverSegs mWitC5 ≠ [] ∧
      ((promote_resolver_compact mWitC5).2 = 1 ∧
        (promote_resolver_compact mWitC5).1.segments = mWitC5.segments ∧
        ∃ w : String, specWinner mWitC5 w ∧
          (promote_resolver_compact mWitC5).1.active_paths =
            specActiveNonResolver mWitC5 ++ [w] ∧
          (promote_resolver_compact mWitC5).1.archived_paths =
            (mWitC5.segments.map (·.path)).filter
              (fun p => decide (¬ p ∈ specActiveNonResolver mWitC5 ++ [w]))) :=
  ⟨by decide, (C5_promotion_selects_winner mWitC5).2 (by decide)⟩

/-! ### Promotion idempotence (C6) -/

/-- A manifest on which promotion is not idempotent: a non-resolver segment
shares its path "a" with the winning resolver segment, and the stale active
list does not contain "a". -/
def mC6 : Manifest :=
  ⟨[⟨SegmentKind.Dict, "a"⟩, ⟨SegmentKind.Resolver, "a"⟩], ["x"], []⟩

theorem resolverSegs_mC6 : resolverSegs mC6 = [⟨SegmentKind.Resolver, "a"⟩] := by
  decide

theorem sortedResolverSegs_mC6 :
    sortedResolverSegs mC6 = [⟨SegmentKind.Resolver, "a"⟩] := by
  unfold sortedResolverSegs
  rw [resolverSegs_mC6]
  exact List.mergeSort_singleton _

theorem chosenSeg_mC6 : chosenSeg mC6 = ⟨SegmentKind.Resolver, "a"⟩ := by
  have hsw : ("a".startsWith "resolver-compact-") = false := by decide
  have hlast : lastCompactSeg mC6 = none := by
    unfold lastCompactSeg
    rw [sortedResolverSegs_mC6]
    simp [hsw]
  unfold chosenSeg
  rw [hlast, sortedResolverSegs_mC6]
  rfl

theorem promote_mC6 :
    promote_resolver_compact mC6 = (⟨mC6.segments, ["a"], []⟩, 1) := by
  have hif : (resolverSegs mC6).isEmpty = false := by
    rw [resolverSegs_mC6]; rfl
  unfold promote_resolver_compact
  rw [hif, chosenSeg_mC6]
  have hkeep : keepPaths mC6 = [] := by decide
  rw [hkeep]
  decide

/-- The manifest obtained after one promotion of mC6. -/
def mC6' : Manifest := ⟨mC6.segments, ["a"], []⟩

theorem resolverSegs_mC6' : resolverSegs mC6' = [⟨SegmentKind.Resolver, "a"⟩] := by
  decide

theorem chosenSeg_mC6' : chosenSeg mC6' = ⟨SegmentKind.Resolver, "a"⟩ := by
  have hsw : ("a".startsWith "resolver-compact-") = false := by decide
  have hsort : sortedResolverSegs mC6' = [⟨SegmentKind.Resolver, "a"⟩] := by
    unfold sortedResolverSegs
    rw [resolverSegs_mC6']
    exact List.mergeSort_singleton _
  have hlast : lastCompactSeg mC6' = none := by
    unfold lastCompactSeg
    rw [hsort]
    simp [hsw]
  unfold chosenSeg
  rw [hlast, hsort]
  rfl

theorem promote_mC6' :
    promote_resolver_compact mC6' = (⟨mC6.segments, ["a", "a"], []⟩, 1) := by
  have hif : (resolverSegs mC6').isEmpty = false := by
    rw [resolverSegs_mC6']; rfl
  unfold promote_resolver_compact
  rw [hif, chosenSeg_mC6']
  have hkeep : keepPaths mC6' = ["a"] := by decide
  rw [hkeep]
  decide

/-- C6 counterexample: promotion is not idempotent on every manifest. On
mC6 the first call yields active_paths = ["a"], the second call yields
active_paths = ["a", "a"]. -/
theorem C6_promotion_not_idempotent :
    (promote_resolver_compact (promote_resolver_compact mC6).1).1 ≠
      (promote_resolver_compact mC6).1 := by
  rw [promote_mC6]
  show (promote_resolver_compact mC6').1 ≠ mC6'
  rw [promote_mC6']
  decide

theorem manifest_eq (a b : Manifest)
    (h1 : a.segments = b.segments) (h2 : a.active_paths = b.active_paths)
    (h3 : a.archived_paths = b.archived_paths) : a = b := by
  cases a; cases b; simp_all

theorem resolverSegs_update (m : Manifest) (A B : List String) :
    resolverSegs ⟨m.segments, A, B⟩ = resolverSegs m := rfl

theorem chosenSeg_update (m : Manifest) (A B : List String) :
    chosenSeg ⟨m.segments, A, B⟩ = chosenSeg m := rfl

theorem mem_keepPaths_of_active (m : Manifest) {s : SegmentRec}
    (hs : s ∈ m.segments) (hk : ¬ s.kind = SegmentKind.Resolver)
    (hae : m.active_paths.isEmpty = false) (hact : s.path ∈ m.active_paths) :
    s.path ∈ keepPaths m := by
  unfold keepPaths
  rw [hae]
  simp only [Bool.false_eq_true, if_false]
  exact List.mem_map_of_mem _ (List.mem_filter.mpr ⟨hs, by simp [hk, hact]⟩)

theorem keepPaths_promoted (m : Manifest) (hres : resolverSegs m ≠ [])
    (hdisj : ∀ s ∈ m.segments, s.kind ≠ SegmentKind.Resolver →
      s.path ∉ resolverPaths m) (B : List String) :
    keepPaths ⟨m.segments, keepPaths m ++ [(chosenSeg m).path], B⟩ = keepPaths m := by
  have hch : (chosenSeg m).path ∈ resolverPaths m :=
    List.mem_map_of_mem _ (chosenSeg_spec m hres).1
  have hne2 : (keepPaths m ++ [(chosenSeg m).path]).isEmpty = false := by
    simp
  conv_lhs => rw [keepPaths]
  simp only [hne2, Bool.false_eq_true, if_false]
  by_cases hae : m.active_paths.isEmpty
  · conv_rhs => rw [keepPaths]
    rw [if_pos hae]
    congr 1
    apply List.filter_congr
    intro s hs
    by_cases hk : s.kind = SegmentKind.Resolver
    · simp [hk]
    · have hmem : s.path ∈ keepPaths m := by
        unfold keepPaths
        rw [if_pos hae]
        exact List.mem_map_of_mem _ (List.mem_filter.mpr ⟨hs, by simp [hk]⟩)
      simp [hk, List.mem_append, hmem]
  · have hae' : m.active_paths.isEmpty = false := by simpa using hae
    conv_rhs => rw [keepPaths]
    rw [if_neg hae]
    congr 1
    apply List.filter_congr
    intro s hs
    by_cases hk : s.kind = SegmentKind.Resolver
    · simp [hk]
    · have hiff : s.path ∈ keepPaths m ++ [(chosenSeg m).path] ↔
          s.path ∈ m.active_paths := by
        constructor
        · intro h
          rcases List.mem_append.mp h with h | h
          · unfold keepPaths at h
            rw [if_neg hae] at h
            rcases List.mem_map.mp h with ⟨t, ht, hpt⟩
            have := List.of_mem_filter ht
            simp only [Bool.and_eq_true, decide_eq_true_eq] at this
            rw [← hpt]
            exact this.2
          · simp only [List.mem_singleton] at h
            exact absurd (h ▸ hch) (hdisj s hs hk)
        · intro h
          exact List.mem_append.mpr
            (Or.inl (mem_keepPaths_of_active m hs hk hae' h))
      simp [hk, hiff]

/-- C6 amended: promotion is idempotent on every manifest in which no
non-resolver segment shares its path with a resolver segment (the
counterexample above shows the restriction is necessary). -/
theorem C6_promotion_idempotent_amended (m : Manifest)
    (hdisj : ∀ s ∈ m.segments, s.kind ≠ SegmentKind.Resolver →
      s.path ∉ resolverPaths m) :
    (promote_resolver_compact (promote_resolver_compact m).1).1 =
      (promote_resolver_compact m).1 := by
  by_cases hres : resolverSegs m = []
  · have h0 : promote_resolver_compact m = (m, 0) := by
      unfold promote_resolver_compact
      rw [if_pos (by simp [List.isEmpty_iff, hres])]
    rw [h0]
    show (promote_resolver_compact m).1 = m
    rw [h0]
  · have hif : ¬ ((resolverSegs m).isEmpty = true) := by
      simpa [List.isEmpty_iff] using hres
    have hpm : promote_resolver_compact m =
        (⟨m.segments,
          keepPaths m ++ [(chosenSeg m).path],
          (m.segments.map (·.path)).filter
            (fun p => decide (¬ p ∈ keepPaths m ++ [(chosenSeg m).path]))⟩, 1) := by
      unfold promote_resolver_compact
      rw [if_neg hif]
    rw [hpm]
    have hres1 : ¬ ((resolverSegs (⟨m.segments,
        keepPaths m ++ [(chosenSeg m).path],
        (m.segments.map (·.path)).filter
          (fun p => decide (¬ p ∈ keepPaths m ++ [(chosenSeg m).path]))⟩ : Manifest)).isEmpty
        = true) := by
      rw [resolverSegs_update]
      exact hif
    unfold promote_resolver_compact
    rw [if_neg hres1]
    apply manifest_eq
    · rfl
    · show keepPaths _ ++ [(chosenSeg _).path] = keepPaths m ++ [(chosenSeg m).path]
      rw [keepPaths_promoted m hres hdisj, chosenSeg_update]
    · show (m.segments.map (·.path)).filter _ =
        (m.segments.map (·.path)).filter _
      rw [keepPaths_promoted m hres hdisj, chosenSeg_update]

/-- Witness for the amended C6 at a two-segment manifest with distinct
paths. -/
theorem C6_promotion_idempotent_amended_witness :
    (∀ s ∈ (⟨[⟨SegmentKind.Dict, "d.prus"⟩, ⟨SegmentKind.Resolver, "r.prus"⟩],
        [], []⟩ : Manifest).segments, s.kind ≠ SegmentKind.Resolver →
      s.path ∉ resolverPaths ⟨[⟨SegmentKind.Dict, "d.prus"⟩,
        ⟨SegmentKind.Resolver, "r.prus"⟩], [], []⟩) ∧
    (promote_resolver_compact (promote_resolver_compact
        ⟨[⟨SegmentKind.Dict, "d.prus"⟩, ⟨SegmentKind.Resolver, "r.prus"⟩],
          [], []⟩).1).1 =
      (promote_resolver_compact
        ⟨[⟨SegmentKind.Dict, "d.prus"⟩, ⟨SegmentKind.Resolver, "r.prus"⟩],
          [], []⟩).1 :=
  ⟨by decide, C6_promotion_idempotent_amended _ (by decide)⟩

/-! ## segment.rs: writer -/

def HDR_SIZE : Nat := 48

/-- A value record as written by `add`/`add_hashed`: [value][crc32_le(value)]. -/
def crc_record (value : List Nat) : List Nat :=
  value ++ u32_le_bytes (crc32 value)

/-- One element of `SegmentWriter::items` (also one hash-table slot; the
on-disk row serializes these fields as LE integers plus a pad word, a
bijection that is elided here). h = 0 marks an empty slot. V1 rows carry no
fingerprint; the model stores 0 there. -/
structure Item where
  h : Nat
  fp : Nat
  off : Nat
  size : Nat
deriving DecidableEq, Repr

def emptySlot : Item := ⟨0, 0, 0, 0⟩

/-- Writer state: the temp file bytes (`create` reserves HDR_SIZE bytes for
the header) and the in-memory item list. -/
structure SegmentWriter where
  file : List Nat
  items : List Item
deriving DecidableEq, Repr

def SegmentWriter.create : SegmentWriter := ⟨List.replicate HDR_SIZE 0, []⟩

/-- The shared body of `add` and `add_hashed`: append [value][crc32] at
off = current end of file; record (h, fp, off, size) with
size = (end - off) as u32, i.e. (value.len() + 4) mod 2^32. Offsets are u64
seek positions; a file cannot reach 2^64 bytes, so off is left unmasked. -/
def SegmentWriter.addItem (w : SegmentWriter) (hk fpk : Nat) (value : List Nat) :
    SegmentWriter :=
  ⟨w.file ++ crc_record value,
    w.items ++ [⟨hk, fpk, w.file.length, (value.length + 4) % 2 ^ 32⟩]⟩

/-- Source `SegmentWriter::add`. The hash functions (`xxh3_64` and the first
8 LE bytes of `blake3`) are external library code, passed as parameters.
The Rust body can only fail on file IO, which has no counterpart in this
in-memory model, so the result is always `ok` — in particular the source
contains NO check for h == 0. -/
def SegmentWriter.add (h64 fp64 : List Nat → Nat) (w : SegmentWriter)
    (key value : List Nat) : Except String SegmentWriter :=
  Except.ok (w.addItem (h64 key) (fp64 key) value)

/-- Source `SegmentWriter::add_hashed`: caller-supplied hash, fingerprint
left 0. Like `add`, it has no h == 0 check and always succeeds. -/
def SegmentWriter.add_hashed (w : SegmentWriter) (hash : Nat) (value : List Nat) :
    Except String SegmentWriter :=
  Except.ok (w.addItem hash 0 value)

/-- The capacity loop of build_hashtable_v1/v2:
cap = 1; while cap < n*5/4 + 1 do cap <<= 1. The cap = 0 guard is
unreachable (the loop starts at 1) and only serves termination. -/
def capGo (cap target : Nat) : Nat :=
  if _h0 : cap = 0 then 0
  else if _h : cap < target then capGo (cap * 2) target else cap
termination_by target - cap
decreasing_by omega

def hashCap (n : Nat) : Nat := capGo 1 (n * 5 / 4 + 1)

/-- Reading table[idx] (always called with idx < cap = table length). -/
def slotAt (table : List Item) (idx : Nat) : Item := table.getD idx emptySlot

/-- The insertion loop shared by build_hashtable_v1/v2: probe linearly from
idx, write the item into the first slot whose h field is 0. The source loops
without bound; a full table would loop forever, so the model carries fuel
(the builder passes cap, enough because the table always keeps an empty
slot). -/
def probeInsert (cap : Nat) (table : List Item) (it : Item) :
    Nat → Nat → List Item
  | _, 0 => table
  | idx, fuel + 1 =>
    if (slotAt table idx).h = 0 then table.set idx it
    else probeInsert cap table it ((idx + 1) &&& (cap - 1)) fuel

/-- The table construction shared by build_hashtable_v1/v2: cap empty slots,
then each item inserted starting at h & (cap-1). -/
def buildTable (cap : Nat) (items : List Item) : List Item :=
  items.foldl (fun t it => probeInsert cap t it (it.h &&& (cap - 1)) cap)
    (List.replicate cap emptySlot)

/-- Source `build_hashtable_v2` (kind 2 rows: h, fp, off, size). -/
def build_hashtable_v2 (items : List Item) : Nat × List Item :=
  (hashCap items.length, buildTable (hashCap items.length) items)

/-- Source `build_hashtable_v1` (kind 1 rows: h, off, size — no
fingerprint; the model zeroes that field). -/
def build_hashtable_v1 (items : List Item) : Nat × List Item :=
  (hashCap items.length,
    buildTable (hashCap items.length)
      (items.map (fun it => ⟨it.h, 0, it.off, it.size⟩)))

/-- A published segment as the reader sees it. `file` holds the header and
data region bytes; the index and filter blocks are kept structured (their
byte serialization round-trips and none of the verified paths read the raw
tail bytes). `digests` is the hash set the XOR8 filter was built over;
the filter is modelled as exact membership — Xor8 has no false negatives,
and its false positives only pass extra keys on to the index probe, which
none of the claims below distinguish. -/
structure Segment where
  file : List Nat
  index_kind : Nat
  cap : Nat
  table : List Item
  digests : List Nat
deriving DecidableEq, Repr

/-- Source `finalize` with the default V2 index and XOR8 filter. -/
def SegmentWriter.finalizeV2 (w : SegmentWriter) : Segment :=
  ⟨w.file, 2, (build_hashtable_v2 w.items).1, (build_hashtable_v2 w.items).2,
    w.items.map (·.h)⟩

/-- Source `finalize` after `set_index_kind(1)` (the compaction path). -/
def SegmentWriter.finalizeV1 (w : SegmentWriter) : Segment :=
  ⟨w.file, 1, (build_hashtable_v1 w.items).1, (build_hashtable_v1 w.items).2,
    w.items.map (·.h)⟩

/-! ## segment.rs: reader -/

/-- The probe loop of `SegmentReader::get` (`for _ in 0..cap`, stop at the
first slot with h == 0; V1 matches h alone, V2 matches h and fp; unknown
index kinds return None). Returns the matched slot's (off, size). -/
def getProbe (kind cap : Nat) (table : List Item) (h fp : Nat) :
    Nat → Nat → Option (Nat × Nat)
  | _, 0 => none
  | idx, fuel + 1 =>
    if (slotAt table idx).h = 0 then none
    else if kind = 1 then
      if (slotAt table idx).h = h then
        some ((slotAt table idx).off, (slotAt table idx).size)
      else getProbe kind cap table h fp ((idx + 1) &&& (cap - 1)) fuel
    else if kind = 2 then
      if (slotAt table idx).h = h ∧ (slotAt table idx).fp = fp then
        some ((slotAt table idx).off, (slotAt table idx).size)
      else getProbe kind cap table h fp ((idx + 1) &&& (cap - 1)) fuel
    else none

/-- Source `SegmentReader::get`: filter check, then `if esz == 0 || cap == 0`
return None, then probe from h & (cap-1); on a hit return the slice
mmap[off .. off+size-4] (the value bytes without the trailing CRC). The
slice is modelled as drop/take; the Rust slice panics when out of range,
which no writer-produced entry is. -/
def Segment.get (h64 fp64 : List Nat → Nat) (seg : Segment) (key : List Nat) :
    Option (List Nat) :=
  if ¬ (h64 key ∈ seg.digests) then none
  else if seg.index_kind ≠ 1 ∧ seg.index_kind ≠ 2 then none
  else if seg.cap = 0 then none
  else
    match getProbe seg.index_kind seg.cap seg.table (h64 key) (fp64 key)
        ((h64 key) &&& (seg.cap - 1)) seg.cap with
    | some pr => some ((seg.file.drop pr.1).take (pr.2 - 4))
    | none => none

/-- Live index entries in slot order, as `SegmentReader::iter` yields them
(slots with h == 0 are skipped). -/
def Segment.iter (seg : Segment) : List Item :=
  seg.table.filter (fun e => decide (¬ e.h = 0))

/-- The outcome of a Rust code path that may panic. -/
inductive RustOutcome (α : Type) where
  | panic : RustOutcome α
  | ret : α → RustOutcome α
deriving DecidableEq, Repr

/-- Rust slice indexing l[a..b]: defined when a ≤ b ≤ l.len(), otherwise the
program panics (modelled as none). -/
def rustSlice (l : List Nat) (a b : Nat) : Option (List Nat) :=
  if a ≤ b ∧ b ≤ l.length then some ((l.drop a).take (b - a)) else none

/-- u32::from_le_bytes of a 4-byte slice. -/
def read_u32_le (l : List Nat) : Nat :=
  l.getD 0 0 + 256 * l.getD 1 0 + 65536 * l.getD 2 0 + 16777216 * l.getD 3 0

/-- Source `SegmentReader::value_at`:
`let end = off.checked_add(size)?;` (usize overflow makes the ? operator
return None), `if end < 4 || end > self.mmap.len() { return None; }`, then
`Some(&self.mmap[off..end-4])`. Note the source checks `end < 4`, NOT
`size < 4`: when size < 4 but 4 ≤ off+size ≤ len the slice range has
start > stop and the Rust program panics. -/
def value_at (mmap : List Nat) (off size : Nat) : RustOutcome (Option (List Nat)) :=
  if off + size ≥ 2 ^ 64 then RustOutcome.ret none
  else if off + size < 4 ∨ off + size > mmap.length then RustOutcome.ret none
  else
    match rustSlice mmap off (off + size - 4) with
    | some s => RustOutcome.ret (some s)
    | none => RustOutcome.panic

/-- Source `SegmentReader::verify_crc_at`: `let end = off + size;` (usize
addition; wraps modulo 2^64 in release builds, which is what is modelled —
debug builds panic on the overflow itself), bounds test returning false,
then crc32 of mmap[off..end-4] compared with the LE u32 at mmap[end-4..end]. -/
def verify_crc_at (mmap : List Nat) (off size : Nat) : RustOutcome Bool :=
  let e := (off + size) % 2 ^ 64
  if e > mmap.length ∨ size < 4 then RustOutcome.ret false
  else
    match rustSlice mmap off (e - 4) with
    | none => RustOutcome.panic
    | some val =>
      match rustSlice mmap (e - 4) e with
      | none => RustOutcome.panic
      | some cb => RustOutcome.ret (decide (crc32 val = read_u32_le cb))

/-! ### Zero hash handling (C4) -/

/-- C4 counterexample: the writer does NOT refuse a zero primary hash.
`add_hashed(0, v)` and `add(key, v)` with h64(key) = 0 both return Ok and
record the entry in `items` (the source has no h == 0 check; spec section 9
admits the original "leaves the bug in place"). -/
theorem C4_writer_accepts_zero_hash :
    SegmentWriter.create.add_hashed 0 [1, 2, 3] =
        Except.ok (SegmentWriter.create.addItem 0 0 [1, 2, 3]) ∧
      (SegmentWriter.create.addItem 0 0 [1, 2, 3]).items.length = 1 ∧
      SegmentWriter.add (fun _ => 0) (fun _ => 0) SegmentWriter.create [9] [1, 2, 3] =
        Except.ok (SegmentWriter.create.addItem 0 0 [1, 2, 3]) :=
  ⟨rfl, by simp [SegmentWriter.addItem, SegmentWriter.create], rfl⟩

theorem getProbe_zero_hash (kind cap : Nat) (table : List Item) (fp : Nat) :
    ∀ (fuel idx : Nat), getProbe kind cap table 0 fp idx fuel = none := by
  intro fuel
  induction fuel with
  | zero => intro idx; rfl
  | succ n ih =>
    intro idx
    rw [getProbe]
    by_cases h0 : (slotAt table idx).h = 0
    · rw [if_pos h0]
    · rw [if_neg h0]
      by_cases hk1 : kind = 1
      · rw [if_pos hk1, if_neg h0]
        exact ih _
      · rw [if_neg hk1]
        by_cases hk2 : kind = 2
        · rw [if_pos hk2, if_neg (by simp [h0])]
          exact ih _
        · rw [if_neg hk2]

/-- C4 amended: `add` with h64(key) == 0 and `add_hashed(0, value)` succeed
without any error and record the entry; the entry is nevertheless
unreachable — `get` for any key whose primary hash is 0 returns none on
every segment, because the probe treats a slot with h == 0 as empty. -/
theorem C4_zero_hash_amended (h64 fp64 : List Nat → Nat) (key value : List Nat)
    (hzero : h64 key = 0) (w : SegmentWriter) :
    SegmentWriter.add h64 fp64 w key value =
        Except.ok (w.addItem 0 (fp64 key) value) ∧
      SegmentWriter.add_hashed w 0 value = Except.ok (w.addItem 0 0 value) ∧
      ∀ seg : Segment, seg.get h64 fp64 key = none := by
  refine ⟨by rw [SegmentWriter.add, hzero], rfl, ?_⟩
  intro seg
  unfold Segment.get
  rw [hzero]
  by_cases hd : (0 : Nat) ∈ seg.digests
  · rw [if_neg (by simp [hd])]
    by_cases hk : seg.index_kind ≠ 1 ∧ seg.index_kind ≠ 2
    · rw [if_pos hk]
    · rw [if_neg hk]
      by_cases hc : seg.cap = 0
      · rw [if_pos hc]
      · rw [if_neg hc, getProbe_zero_hash]
  · rw [if_pos (by simp [hd])]

/-- Witness for the amended C4 with constant-zero hash functions. -/
theorem C4_zero_hash_amended_witness :
    (fun (_ : List Nat) => 0) [1] = 0 ∧
      (SegmentWriter.add (fun _ => 0) (fun _ => 0) SegmentWriter.create [1] [2] =
          Except.ok (SegmentWriter.create.addItem 0
            ((fun (_ : List Nat) => 0) [1]) [2]) ∧
        SegmentWriter.add_hashed SegmentWriter.create 0 [2] =
          Except.ok (SegmentWriter.create.addItem 0 0 [2]) ∧
        ∀ seg : Segment, seg.get (fun _ => 0) (fun _ => 0) [1] = none) :=
  ⟨rfl, C4_zero_hash_amended (fun _ => 0) (fun _ => 0) [1] [2] rfl SegmentWriter.create⟩

/-! ### Bounded record access (C9) -/

/-- C9 failing input: on a 4-byte mapped file, `value_at(4, 0)` passes the
source's checks (end = 4 is neither < 4 nor > len) and then evaluates the
slice mmap[4..0], whose start exceeds its stop — a Rust panic, where the
claim (and spec section 3) requires returning None whenever size < 4. -/
theorem C9_value_at_panics_on_small_size :
    value_at [0, 0, 0, 0] 4 0 = RustOutcome.panic := by decide

/-- The part of C9 the code does satisfy: when off + size does not overflow
usize, `verify_crc_at` never panics, and both operations report
failure (false / None) whenever the record exceeds the file or, for
`verify_crc_at`, size < 4. -/
theorem C9_partial_bounds (mmap : List Nat) (off size : Nat)
    (hov : off + size < 2 ^ 64) :
    verify_crc_at mmap off size ≠ RustOutcome.panic ∧
      (off + size > mmap.length ∨ size < 4 →
        verify_crc_at mmap off size = RustOutcome.ret false) ∧
      (off + size > mmap.length →
        value_at mmap off size = RustOutcome.ret none) := by
  have hmod : (off + size) % 2 ^ 64 = off + size := Nat.mod_eq_of_lt hov
  refine ⟨?_, ?_, ?_⟩
  · unfold verify_crc_at
    rw [hmod]
    by_cases hb : off + size > mmap.length ∨ size < 4
    · rw [if_pos hb]
      simp
    · rw [if_neg hb]
      push_neg at hb
      have hs1 : rustSlice mmap off (off + size - 4) =
          some ((mmap.drop off).take (off + size - 4 - off)) := by
        unfold rustSlice
        rw [if_pos ⟨by omega, by omega⟩]
      have hs2 : rustSlice mmap (off + size - 4) (off + size) =
          some ((mmap.drop (off + size - 4)).take (off + size - (off + size - 4))) := by
        unfold rustSlice
        rw [if_pos ⟨by omega, by omega⟩]
      rw [hs1, hs2]
      simp
  · intro hcond
    unfold verify_crc_at
    rw [hmod]
    rw [if_pos hcond]
  · intro hcond
    unfold value_at
    rw [if_neg (by omega)]
    rw [if_pos (by omega)]

/-! ### Index completeness (C1): capacity and table lemmas -/

theorem capGo_ge_aux : ∀ (d cap t : Nat), t - cap ≤ d → 0 < cap → t ≤ capGo cap t := by
  intro d
  induction d with
  | zero =>
    intro cap t hd h
    rw [capGo, dif_neg (by omega), dif_neg (by omega)]
    omega
  | succ d ih =>
    intro cap t hd h
    by_cases hlt : cap < t
    · rw [capGo, dif_neg (by omega), dif_pos hlt]
      exact ih (cap * 2) t (by omega) (by omega)
    · rw [capGo, dif_neg (by omega), dif_neg hlt]
      omega

theorem capGo_pow_aux : ∀ (d cap t k : Nat), t - cap ≤ d → cap = 2 ^ k →
    ∃ j, capGo cap t = 2 ^ j := by
  intro d
  induction d with
  | zero =>
    intro cap t k hd hk
    have hpos : 0 < cap := by
      rw [hk]; positivity
    rw [capGo, dif_neg (by omega), dif_neg (by omega)]
    exact ⟨k, hk⟩
  | succ d ih =>
    intro cap t k hd hk
    have hpos : 0 < cap := by
      rw [hk]; positivity
    by_cases hlt : cap < t
    · rw [capGo, dif_neg (by omega), dif_pos hlt]
      exact ih (cap * 2) t (k + 1) (by omega) (by rw [hk]; ring)
    · rw [capGo, dif_neg (by omega), dif_neg hlt]
      exact ⟨k, hk⟩

theorem hashCap_ge (n : Nat) : n + 1 ≤ hashCap n := by
  have h1 : n ≤ n * 5 / 4 := by
    have h : n * 4 / 4 ≤ n * 5 / 4 := Nat.div_le_div_right (by omega)
    simpa using h
  have h2 := capGo_ge_aux (n * 5 / 4 + 1) 1 (n * 5 / 4 + 1) (by omega) (by omega)
  unfold hashCap
  omega

theorem hashCap_pow (n : Nat) : ∃ k, hashCap n = 2 ^ k :=
  capGo_pow_aux (n * 5 / 4 + 1) 1 (n * 5 / 4 + 1) 0 (by omega) rfl

theorem mask_mod {cap k : Nat} (hcap : cap = 2 ^ k) (x : Nat) :
    x &&& (cap - 1) = x % cap := by
  subst hcap
  exact and_two_pow_sub_one x k

theorem probeInsert_length (cap : Nat) (t : List Item) (it : Item) :
    ∀ (fuel idx : Nat), (probeInsert cap t it idx fuel).length = t.length := by
  intro fuel
  induction fuel with
  | zero => intro idx; rfl
  | succ n ih =>
    intro idx
    rw [probeInsert]
    split
    · exact List.length_set ..
    · exact ih _

theorem slotAt_eq_getElem (t : List Item) (i : Nat) (hi : i < t.length) :
    slotAt t i = t[i] := by
  unfold slotAt
  rw [List.getD_eq_getElem?_getD, List.getElem?_eq_getElem hi]
  rfl

theorem slotAt_default (t : List Item) (i : Nat) (hi : t.length ≤ i) :
    slotAt t i = emptySlot := by
  unfold slotAt
  rw [List.getD_eq_getElem?_getD, List.getElem?_eq_none hi]
  rfl

/-- Number of occupied (h ≠ 0) slots. -/
def occCount (t : List Item) : Nat :=
  (t.filter (fun e => decide (¬ e.h = 0))).length

theorem occCount_set_le : ∀ (t : List Item) (s : Nat) (it : Item),
    occCount (t.set s it) ≤ occCount t + 1 := by
  intro t
  induction t with
  | nil => intro s it; simp [occCount]
  | cons a t ih =>
    intro s it
    cases s with
    | zero =>
      show occCount (it :: t) ≤ occCount (a :: t) + 1
      unfold occCount
      rw [List.filter_cons, List.filter_cons]
      by_cases hit : it.h = 0 <;> by_cases ha : a.h = 0 <;>
        simp [hit, ha] <;> omega
    | succ s =>
      show occCount (a :: t.set s it) ≤ occCount (a :: t) + 1
      unfold occCount
      rw [List.filter_cons, List.filter_cons]
      have hih := ih s it
      unfold occCount at hih
      by_cases ha : a.h = 0 <;> simp [ha] <;> simp at hih <;> omega

theorem exists_empty_of_occ_lt (t : List Item) (hocc : occCount t < t.length) :
    ∃ s, s < t.length ∧ (slotAt t s).h = 0 := by
  by_contra hcon
  push_neg at hcon
  have hall : ∀ e ∈ t, (fun e : Item => decide (¬ e.h = 0)) e = true := by
    intro e he
    rcases List.mem_iff_getElem.mp he with ⟨i, hi, rfl⟩
    have hs := hcon i hi
    rw [slotAt_eq_getElem t i hi] at hs
    simpa using hs
  have hlen : occCount t = t.length := by
    unfold occCount
    rw [List.filter_eq_self.mpr hall]
  omega

theorem slotAt_set_self (t : List Item) (s : Nat) (hs : s < t.length) (it : Item) :
    slotAt (t.set s it) s = it := by
  rw [slotAt_eq_getElem _ _ (by simpa using hs)]
  exact List.getElem_set_self _

theorem slotAt_set_ne (t : List Item) (s idx : Nat) (hne : idx ≠ s) (it : Item) :
    slotAt (t.set s it) idx = slotAt t idx := by
  by_cases hidx : idx < t.length
  · rw [slotAt_eq_getElem _ _ (by simpa using hidx), slotAt_eq_getElem _ _ hidx]
    exact List.getElem_set_ne (by omega) ..
  · rw [slotAt_default _ _ (by simpa using not_lt.mp hidx),
      slotAt_default _ _ (not_lt.mp hidx)]

theorem probeInsert_run {cap k : Nat} (hcap : cap = 2 ^ k) (t : List Item) (it : Item) :
    ∀ (j fuel start : Nat), j < fuel → start < cap →
      (∀ i, i < j → (slotAt t ((start + i) % cap)).h ≠ 0) →
      (slotAt t ((start + j) % cap)).h = 0 →
      probeInsert cap t it start fuel = t.set ((start + j) % cap) it := by
  intro j
  induction j with
  | zero =>
    intro fuel start hf hs hpath hempty
    cases fuel with
    | zero => omega
    | succ f =>
      have hsmod : (start + 0) % cap = start := by
        rw [Nat.add_zero, Nat.mod_eq_of_lt hs]
      rw [hsmod] at hempty
      rw [probeInsert, if_pos hempty, hsmod]
  | succ j ih =>
    intro fuel start hf hs hpath hempty
    cases fuel with
    | zero => omega
    | succ f =>
      have hcap0 : 0 < cap := by
        rw [hcap]; positivity
      have h0 : (slotAt t start).h ≠ 0 := by
        have h := hpath 0 (by omega)
        rwa [Nat.add_zero, Nat.mod_eq_of_lt hs] at h
      rw [probeInsert, if_neg h0, mask_mod hcap]
      have hrw : ∀ i : Nat, ((start + 1) % cap + i) % cap = (start + (i + 1)) % cap := by
        intro i
        rw [Nat.mod_add_mod]
        congr 1
        omega
      have hres := ih f ((start + 1) % cap) (by omega) (Nat.mod_lt _ hcap0)
        (fun i hi => by
          rw [hrw i]
          exact hpath (i + 1) (by omega))
        (by
          rw [hrw j]
          exact hempty)
      rw [hres, hrw j]

theorem getProbe_run_v2 {cap k : Nat} (hcap : cap = 2 ^ k) (table : List Item)
    (h fp : Nat) :
    ∀ (j fuel start : Nat), j < fuel → start < cap →
      (∀ i, i < j → (slotAt table ((start + i) % cap)).h ≠ 0 ∧
        ¬ ((slotAt table ((start + i) % cap)).h = h ∧
           (slotAt table ((start + i) % cap)).fp = fp)) →
      ((slotAt table ((start + j) % cap)).h = h ∧
       (slotAt table ((start + j) % cap)).fp = fp ∧
       (slotAt table ((start + j) % cap)).h ≠ 0) →
      getProbe 2 cap table h fp start fuel =
        some ((slotAt table ((start + j) % cap)).off,
              (slotAt table ((start + j) % cap)).size) := by
  intro j
  induction j with
  | zero =>
    intro fuel start hf hs hpath hmatch
    cases fuel with
    | zero => omega
    | succ f =>
      have hsmod : (start + 0) % cap = start := by
        rw [Nat.add_zero, Nat.mod_eq_of_lt hs]
      rw [hsmod] at hmatch
      rw [getProbe, if_neg hmatch.2.2, if_neg (by omega), if_pos rfl,
        if_pos ⟨hmatch.1, hmatch.2.1⟩, hsmod]
  | succ j ih =>
    intro fuel start hf hs hpath hmatch
    cases fuel with
    | zero => omega
    | succ f =>
      have hcap0 : 0 < cap := by
        rw [hcap]; positivity
      have h0 := hpath 0 (by omega)
      rw [Nat.add_zero, Nat.mod_eq_of_lt hs] at h0
      rw [getProbe, if_neg h0.1, if_neg (by omega), if_pos rfl, if_neg h0.2,
        mask_mod hcap]
      have hrw : ∀ i : Nat, ((start + 1) % cap + i) % cap = (start + (i + 1)) % cap := by
        intro i
        rw [Nat.mod_add_mod]
        congr 1
        omega
      have hres := ih f ((start + 1) % cap) (by omega) (Nat.mod_lt _ hcap0)
        (fun i hi => by
          rw [hrw i]
          exact hpath (i + 1) (by omega))
        (by
          rw [hrw j]
          exact hmatch)
      rw [hres, hrw j]

/-- Invariant of the table build: after inserting `pre`, the table has cap
slots, at most pre.length of them occupied, every occupied slot holds an
inserted item, and every inserted item sits at the end of an all-occupied
probe path from its home slot h mod cap. -/
def TableInv (cap : Nat) (pre : List Item) (t : List Item) : Prop :=
  t.length = cap ∧
  occCount t ≤ pre.length ∧
  (∀ idx, idx < cap → (slotAt t idx).h ≠ 0 → slotAt t idx ∈ pre) ∧
  (∀ e ∈ pre, ∃ j, j < cap ∧ slotAt t ((e.h + j) % cap) = e ∧
    ∀ i, i < j → (slotAt t ((e.h + i) % cap)).h ≠ 0)

theorem occCount_replicate (cap : Nat) :
    occCount (List.replicate cap emptySlot) = 0 := by
  unfold occCount
  rw [List.filter_replicate]
  simp [emptySlot]

theorem slotAt_replicate (cap idx : Nat) :
    slotAt (List.replicate cap emptySlot) idx = emptySlot := by
  by_cases hidx : idx < cap
  · rw [slotAt_eq_getElem _ _ (by simpa using hidx)]
    exact List.getElem_replicate ..
  · exact slotAt_default _ _ (by simpa using not_lt.mp hidx)

theorem tableInv_init (cap : Nat) : TableInv cap [] (List.replicate cap emptySlot) := by
  refine ⟨by simp, by simp [occCount_replicate], ?_, ?_⟩
  · intro idx _ hocc
    rw [slotAt_replicate] at hocc
    simp [emptySlot] at hocc
  · intro e he
    simp at he

theorem tableInv_step {cap k : Nat} (hcap : cap = 2 ^ k) (pre t : List Item)
    (inv : TableInv cap pre t) (it : Item) (hnz : it.h ≠ 0)
    (hpre : ∀ e ∈ pre, e.h ≠ 0) (hlt : pre.length < cap) :
    TableInv cap (pre ++ [it])
      (probeInsert cap t it (it.h &&& (cap - 1)) cap) := by
  obtain ⟨hlen, hocc, hmem, hwit⟩ := inv
  have hcap0 : 0 < cap := by
    rw [hcap]; positivity
  obtain ⟨s, hs, hsempty⟩ := exists_empty_of_occ_lt t (by omega)
  rw [hlen] at hs
  have hstart : it.h % cap < cap := Nat.mod_lt _ hcap0
  -- an index on the probe ring that reaches the empty slot s
  have hi₀ : ∃ i₀, i₀ < cap ∧ (it.h % cap + i₀) % cap = s := by
    by_cases hge : it.h % cap ≤ s
    · refine ⟨s - it.h % cap, by omega, ?_⟩
      have hsum : it.h % cap + (s - it.h % cap) = s := by omega
      rw [hsum, Nat.mod_eq_of_lt hs]
    · refine ⟨cap + s - it.h % cap, by omega, ?_⟩
      have hsum : it.h % cap + (cap + s - it.h % cap) = cap + s := by omega
      rw [hsum, Nat.add_mod_left, Nat.mod_eq_of_lt hs]
  obtain ⟨i₀, hi₀lt, hi₀eq⟩ := hi₀
  have hex : ∃ i, (slotAt t ((it.h % cap + i) % cap)).h = 0 :=
    ⟨i₀, by rw [hi₀eq]; exact hsempty⟩
  have hjP : (slotAt t ((it.h % cap + Nat.find hex) % cap)).h = 0 := Nat.find_spec hex
  have hjmin : ∀ i, i < Nat.find hex →
      (slotAt t ((it.h % cap + i) % cap)).h ≠ 0 :=
    fun i hi => Nat.find_min hex hi
  have hjlt : Nat.find hex < cap :=
    lt_of_le_of_lt (Nat.find_min' hex (by rw [hi₀eq]; exact hsempty)) hi₀lt
  have hsetlt : (it.h % cap + Nat.find hex) % cap < cap := Nat.mod_lt _ hcap0
  have hsetlt' : (it.h % cap + Nat.find hex) % cap < t.length := by
    rw [hlen]; exact hsetlt
  have hrun := probeInsert_run hcap t it (Nat.find hex) cap (it.h % cap) hjlt
    hstart hjmin hjP
  rw [mask_mod hcap, hrun]
  refine ⟨by rw [List.length_set]; exact hlen, ?_, ?_, ?_⟩
  · have h1 := occCount_set_le t ((it.h % cap + Nat.find hex) % cap) it
    simp only [List.length_append, List.length_singleton]
    omega
  · intro idx hidx hocc
    by_cases heq : idx = (it.h % cap + Nat.find hex) % cap
    · subst heq
      rw [slotAt_set_self _ _ hsetlt' it]
      simp
    · rw [slotAt_set_ne _ _ _ heq] at hocc ⊢
      exact List.mem_append_left _ (hmem idx hidx hocc)
  · intro e he
    rcases List.mem_append.mp he with hepre | heit
    · obtain ⟨je, hje, hslot, hpath⟩ := hwit e hepre
      refine ⟨je, hje, ?_, ?_⟩
      · have hne : (e.h + je) % cap ≠ (it.h % cap + Nat.find hex) % cap := by
          intro hcontra
          have h1 : (slotAt t ((e.h + je) % cap)).h = 0 := by
            rw [hcontra]
            exact hjP
          rw [hslot] at h1
          exact hpre e hepre h1
        rw [slotAt_set_ne _ _ _ hne, hslot]
      · intro i hi
        by_cases hci : (e.h + i) % cap = (it.h % cap + Nat.find hex) % cap
        · rw [hci, slotAt_set_self _ _ hsetlt' it]
          exact hnz
        · rw [slotAt_set_ne _ _ _ hci]
          exact hpath i hi
    · have heq : e = it := by simpa using heit
      subst heq
      refine ⟨Nat.find hex, hjlt, ?_, ?_⟩
      · have hmodeq : (e.h + Nat.find hex) % cap = (e.h % cap + Nat.find hex) % cap :=
          (Nat.mod_add_mod ..).symm
        rw [hmodeq]
        exact slotAt_set_self _ _ hsetlt' e
      · intro i hi
        by_cases hci : (e.h + i) % cap = (e.h % cap + Nat.find hex) % cap
        · rw [hci, slotAt_set_self _ _ hsetlt' e]
          exact hnz
        · rw [slotAt_set_ne _ _ _ hci]
          have h1 := hjmin i hi
          rwa [Nat.mod_add_mod] at h1

theorem buildTable_inv {cap k : Nat} (hcap : cap = 2 ^ k) :
    ∀ (rest pre t : List Item), TableInv cap pre t →
      (∀ e ∈ pre, e.h ≠ 0) → (∀ e ∈ rest, e.h ≠ 0) →
      pre.length + rest.length + 1 ≤ cap →
      TableInv cap (pre ++ rest)
        (rest.foldl (fun tt itm => probeInsert cap tt itm (itm.h &&& (cap - 1)) cap) t) := by
  intro rest
  induction rest with
  | nil =>
    intro pre t inv _ _ _
    simpa using inv
  | cons itm rest' ih =>
    intro pre t inv hpre hrest hlen
    have hstep := tableInv_step hcap pre t inv itm
      (hrest itm (by simp)) hpre (by simp at hlen; omega)
    have hres := ih (pre ++ [itm])
      (probeInsert cap t itm (itm.h &&& (cap - 1)) cap) hstep
      (by
        intro e he
        rcases List.mem_append.mp he with h | h
        · exact hpre e h
        · have : e = itm := by simpa using h
          subst this
          exact hrest e (by simp))
      (fun e he => hrest e (List.mem_cons_of_mem _ he))
      (by simp at hlen ⊢; omega)
    rw [List.foldl_cons]
    rw [List.append_assoc] at hres
    simpa using hres

theorem pairwise_digest_inj (items : List Item)
    (hdist : items.Pairwise (fun a b => ¬ (a.h = b.h ∧ a.fp = b.fp))) :
    ∀ x ∈ items, ∀ y ∈ items, x.h = y.h → x.fp = y.fp → x = y := by
  induction items with
  | nil => intro x hx; simp at hx
  | cons a t ih =>
    intro x hx y hy hh hfp
    rcases List.pairwise_cons.mp hdist with ⟨ha, ht⟩
    rcases List.mem_cons.mp hx with rfl | hxt
    · rcases List.mem_cons.mp hy with rfl | hyt
      · rfl
      · exact absurd ⟨hh, hfp⟩ (ha y hyt)
    · rcases List.mem_cons.mp hy with rfl | hyt
      · exact absurd ⟨hh.symm, hfp.symm⟩ (ha x hxt)
      · exact ih ht x hxt y hyt hh hfp

theorem buildTable_lookup {cap k : Nat} (hcap : cap = 2 ^ k) (items : List Item)
    (hnz : ∀ e ∈ items, e.h ≠ 0)
    (hdist : items.Pairwise (fun a b => ¬ (a.h = b.h ∧ a.fp = b.fp)))
    (hlen : items.length + 1 ≤ cap)
    (e : Item) (he : e ∈ items) :
    getProbe 2 cap (buildTable cap items) e.h e.fp (e.h &&& (cap - 1)) cap =
      some (e.off, e.size) := by
  have hcap0 : 0 < cap := by
    rw [hcap]; positivity
  have hinv : TableInv cap ([] ++ items) (buildTable cap items) :=
    buildTable_inv hcap items [] (List.replicate cap emptySlot)
      (tableInv_init cap) (by intro e he'; simp at he')
      hnz (by simpa using hlen)
  rw [List.nil_append] at hinv
  obtain ⟨hlen', hocc, hmem, hwit⟩ := hinv
  obtain ⟨j, hj, hslot, hpath⟩ := hwit e he
  -- least index on the probe path where the digests match
  have hex : ∃ i, (slotAt (buildTable cap items) ((e.h + i) % cap)).h = e.h ∧
      (slotAt (buildTable cap items) ((e.h + i) % cap)).fp = e.fp :=
    ⟨j, by rw [hslot]; exact ⟨rfl, rfl⟩⟩
  have hjP := Nat.find_spec hex
  have hjmin := fun i (hi : i < Nat.find hex) => Nat.find_min hex hi
  have hjle : Nat.find hex ≤ j := Nat.find_min' hex (by rw [hslot]; exact ⟨rfl, rfl⟩)
  have hjlt : Nat.find hex < cap := lt_of_le_of_lt hjle hj
  have henz : e.h ≠ 0 := hnz e he
  have hstart : e.h % cap < cap := Nat.mod_lt _ hcap0
  have hmodeq : ∀ i : Nat, (e.h % cap + i) % cap = (e.h + i) % cap :=
    fun i => Nat.mod_add_mod ..
  have hrun := getProbe_run_v2 hcap (buildTable cap items) e.h e.fp
    (Nat.find hex) cap (e.h % cap) hjlt hstart
    (fun i hi => by
      rw [hmodeq i]
      refine ⟨hpath i (by omega), ?_⟩
      intro hcontra
      exact hjmin i hi hcontra)
    (by
      rw [hmodeq (Nat.find hex)]
      exact ⟨hjP.1, hjP.2, by rw [hjP.1]; exact henz⟩)
  -- the matched slot holds exactly e
  have hfound : slotAt (buildTable cap items) ((e.h + Nat.find hex) % cap) = e := by
    have hidxlt : (e.h + Nat.find hex) % cap < cap := Nat.mod_lt _ hcap0
    have hoccn : (slotAt (buildTable cap items) ((e.h + Nat.find hex) % cap)).h ≠ 0 := by
      rw [hjP.1]; exact henz
    have hmm := hmem _ hidxlt hoccn
    exact pairwise_digest_inj items hdist _ hmm e he hjP.1 hjP.2
  rw [mask_mod hcap]
  have hstartmod : e.h &&& (cap - 1) = e.h % cap := mask_mod hcap e.h
  rw [hrun, hmodeq (Nat.find hex), hfound]

/-- The claim's writer run: create, then add(key_i, value_i) for every pair
in order (each add succeeds; the Ok payloads are threaded through). -/
def addAll (h64 fp64 : List Nat → Nat) (pairs : List (List Nat × List Nat)) :
    SegmentWriter :=
  pairs.foldl (fun w kv => w.addItem (h64 kv.1) (fp64 kv.1) kv.2) SegmentWriter.create

theorem addAll_go_file (h64 fp64 : List Nat → Nat) :
    ∀ (pairs : List (List Nat × List Nat)) (w : SegmentWriter), ∃ ext : List Nat,
      (pairs.foldl (fun w kv => w.addItem (h64 kv.1) (fp64 kv.1) kv.2) w).file =
        w.file ++ ext := by
  intro pairs
  induction pairs with
  | nil => intro w; exact ⟨[], by simp⟩
  | cons kv rest ih =>
    intro w
    obtain ⟨ext, hext⟩ := ih (w.addItem (h64 kv.1) (fp64 kv.1) kv.2)
    refine ⟨crc_record kv.2 ++ ext, ?_⟩
    rw [List.foldl_cons, hext]
    simp [SegmentWriter.addItem]

theorem addAll_go_items (h64 fp64 : List Nat → Nat) :
    ∀ (pairs : List (List Nat × List Nat)) (w : SegmentWriter), ∃ ext : List Item,
      (pairs.foldl (fun w kv => w.addItem (h64 kv.1) (fp64 kv.1) kv.2) w).items =
        w.items ++ ext := by
  intro pairs
  induction pairs with
  | nil => intro w; exact ⟨[], by simp⟩
  | cons kv rest ih =>
    intro w
    obtain ⟨ext, hext⟩ := ih (w.addItem (h64 kv.1) (fp64 kv.1) kv.2)
    refine ⟨⟨h64 kv.1, fp64 kv.1, w.file.length, (kv.2.length + 4) % 2 ^ 32⟩ :: ext, ?_⟩
    rw [List.foldl_cons, hext]
    simp [SegmentWriter.addItem]

theorem addAll_go_digest_pairs (h64 fp64 : List Nat → Nat) :
    ∀ (pairs : List (List Nat × List Nat)) (w : SegmentWriter),
      ((pairs.foldl (fun w kv => w.addItem (h64 kv.1) (fp64 kv.1) kv.2) w).items).map
          (fun it => (it.h, it.fp)) =
        w.items.map (fun it => (it.h, it.fp)) ++
          pairs.map (fun kv => (h64 kv.1, fp64 kv.1)) := by
  intro pairs
  induction pairs with
  | nil => intro w; simp
  | cons kv rest ih =>
    intro w
    rw [List.foldl_cons, ih]
    simp [SegmentWriter.addItem]

theorem addAll_go_mem (h64 fp64 : List Nat → Nat) :
    ∀ (pairs : List (List Nat × List Nat)) (w : SegmentWriter)
      (kv : List Nat × List Nat), kv ∈ pairs →
      ∃ it, it ∈ (pairs.foldl (fun w kv => w.addItem (h64 kv.1) (fp64 kv.1) kv.2) w).items ∧
        it.h = h64 kv.1 ∧ it.fp = fp64 kv.1 ∧
        it.size = (kv.2.length + 4) % 2 ^ 32 ∧
        (((pairs.foldl (fun w kv => w.addItem (h64 kv.1) (fp64 kv.1) kv.2) w).file.drop
          it.off).take kv.2.length) = kv.2 := by
  intro pairs
  induction pairs with
  | nil => intro w kv hkv; simp at hkv
  | cons kv0 rest ih =>
    intro w kv hkv
    rcases List.mem_cons.mp hkv with rfl | hkvr
    · refine ⟨⟨h64 kv.1, fp64 kv.1, w.file.length, (kv.2.length + 4) % 2 ^ 32⟩,
        ?_, rfl, rfl, rfl, ?_⟩
      · rw [List.foldl_cons]
        obtain ⟨ext, hext⟩ := addAll_go_items h64 fp64 rest
          (w.addItem (h64 kv.1) (fp64 kv.1) kv.2)
        rw [hext]
        simp [SegmentWriter.addItem]
      · rw [List.foldl_cons]
        obtain ⟨ext, hext⟩ := addAll_go_file h64 fp64 rest
          (w.addItem (h64 kv.1) (fp64 kv.1) kv.2)
        rw [hext]
        show ((((w.addItem (h64 kv.1) (fp64 kv.1) kv.2).file ++ ext).drop
          w.file.length).take kv.2.length) = kv.2
        have hfile : (w.addItem (h64 kv.1) (fp64 kv.1) kv.2).file ++ ext =
            w.file ++ (kv.2 ++ (u32_le_bytes (crc32 kv.2) ++ ext)) := by
          simp [SegmentWriter.addItem, crc_record]
        rw [hfile, List.drop_left, List.take_left]
    · rw [List.foldl_cons]
      exact ih (w.addItem (h64 kv0.1) (fp64 kv0.1) kv0.2) kv hkvr

/-- C1, index completeness: a SegmentWriter with the (default) V2 index that
adds (key_i, value_i) for every pair and finalizes yields a segment on which
get(key_i) returns exactly value_i (the value bytes without the trailing
CRC). The external hash functions xxh3_64 (h64) and blake3-prefix (fp64) are
opaque parameters; "pairwise-distinct keys" is rendered as pairwise-distinct
(h64, fp64) digest pairs — the property the V2 fingerprint exists to provide
for distinct keys — and "xxh3_64(key) != 0" as h64 key ≠ 0. Each value must
fit the on-disk u32 size field (len + 4 < 2^32), which the claim's segment
format presupposes. -/
theorem C1_index_completeness (h64 fp64 : List Nat → Nat)
    (pairs : List (List Nat × List Nat))
    (hdist : pairs.Pairwise (fun a b => ¬ (h64 a.1 = h64 b.1 ∧ fp64 a.1 = fp64 b.1)))
    (hnz : ∀ kv ∈ pairs, h64 kv.1 ≠ 0)
    (hsz : ∀ kv ∈ pairs, kv.2.length + 4 < 2 ^ 32) :
    ∀ kv ∈ pairs,
      Segment.get h64 fp64 (SegmentWriter.finalizeV2 (addAll h64 fp64 pairs)) kv.1 =
        some kv.2 := by
  intro kv hkv
  obtain ⟨it, hitmem, hith, hitfp, hitsize, hitslice⟩ :=
    addAll_go_mem h64 fp64 pairs SegmentWriter.create kv hkv
  have hdigchar : (addAll h64 fp64 pairs).items.map (fun it => (it.h, it.fp)) =
      pairs.map (fun kv => (h64 kv.1, fp64 kv.1)) := by
    have h := addAll_go_digest_pairs h64 fp64 pairs SegmentWriter.create
    simpa [SegmentWriter.create, addAll] using h
  -- the final item list has pairwise-distinct digests and nonzero hashes
  have hdist' : (addAll h64 fp64 pairs).items.Pairwise
      (fun a b => ¬ (a.h = b.h ∧ a.fp = b.fp)) := by
    have h1 : (pairs.map (fun kv => (h64 kv.1, fp64 kv.1))).Pairwise (· ≠ ·) := by
      rw [List.pairwise_map]
      refine hdist.imp ?_
      intro a b hab hcontra
      rcases Prod.mk.injEq .. ▸ hcontra with h
      exact hab ⟨congrArg Prod.fst hcontra, congrArg Prod.snd hcontra⟩
    rw [← hdigchar, List.pairwise_map] at h1
    refine h1.imp ?_
    intro a b hab hcontra
    exact hab (Prod.ext hcontra.1 hcontra.2)
  have hnz' : ∀ e ∈ (addAll h64 fp64 pairs).items, e.h ≠ 0 := by
    intro e hemem
    have hmemmap : (e.h, e.fp) ∈ (addAll h64 fp64 pairs).items.map
        (fun it => (it.h, it.fp)) := List.mem_map_of_mem _ hemem
    rw [hdigchar] at hmemmap
    rcases List.mem_map.mp hmemmap with ⟨kv', hkv', heq⟩
    have : h64 kv'.1 = e.h := congrArg Prod.fst heq
    rw [← this]
    exact hnz kv' hkv'
  obtain ⟨κ, hκ⟩ := hashCap_pow (addAll h64 fp64 pairs).items.length
  have hcapnz : hashCap (addAll h64 fp64 pairs).items.length ≠ 0 := by
    rw [hκ]; positivity
  have hprobe : getProbe 2 (hashCap (addAll h64 fp64 pairs).items.length)
      (buildTable (hashCap (addAll h64 fp64 pairs).items.length)
        (addAll h64 fp64 pairs).items)
      (h64 kv.1) (fp64 kv.1)
      ((h64 kv.1) &&& (hashCap (addAll h64 fp64 pairs).items.length - 1))
      (hashCap (addAll h64 fp64 pairs).items.length) = some (it.off, it.size) := by
    rw [← hith, ← hitfp]
    exact buildTable_lookup hκ (addAll h64 fp64 pairs).items hnz' hdist'
      (hashCap_ge _) it hitmem
  have hmemdig : h64 kv.1 ∈ (addAll h64 fp64 pairs).items.map (·.h) := by
    rw [← hith]
    exact List.mem_map_of_mem _ hitmem
  show (if ¬ (h64 kv.1 ∈ (SegmentWriter.finalizeV2 (addAll h64 fp64 pairs)).digests)
      then none else _) = some kv.2
  rw [if_neg (by simpa [SegmentWriter.finalizeV2] using hmemdig)]
  rw [if_neg (by simp [SegmentWriter.finalizeV2])]
  rw [if_neg (by simpa [SegmentWriter.finalizeV2, build_hashtable_v2] using hcapnz)]
  show (match getProbe _ _ _ _ _ _ _ with
    | some pr => some (((SegmentWriter.finalizeV2 (addAll h64 fp64 pairs)).file.drop
        pr.1).take (pr.2 - 4))
    | none => none) = some kv.2
  have hsz' : it.size = kv.2.length + 4 := by
    rw [hitsize, Nat.mod_eq_of_lt (hsz kv hkv)]
  rw [show (SegmentWriter.finalizeV2 (addAll h64 fp64 pairs)).index_kind = 2 from rfl,
    show (SegmentWriter.finalizeV2 (addAll h64 fp64 pairs)).cap =
      hashCap (addAll h64 fp64 pairs).items.length from rfl,
    show (SegmentWriter.finalizeV2 (addAll h64 fp64 pairs)).table =
      buildTable (hashCap (addAll h64 fp64 pairs).items.length)
        (addAll h64 fp64 pairs).items from rfl,
    hprobe]
  show some (((SegmentWriter.finalizeV2 (addAll h64 fp64 pairs)).file.drop
      it.off).take (it.size - 4)) = some kv.2
  rw [show (SegmentWriter.finalizeV2 (addAll h64 fp64 pairs)).file =
      (addAll h64 fp64 pairs).file from rfl]
  rw [hsz']
  simp only [Nat.add_sub_cancel]
  rw [show (addAll h64 fp64 pairs).file =
    (pairs.foldl (fun w kv => w.addItem (h64 kv.1) (fp64 kv.1) kv.2)
      SegmentWriter.create).file from rfl, hitslice]

/-- Witness for C1: two pairs with distinct digests. -/
theorem C1_index_completeness_witness :
    (([([1], [10, 11]), ([2], [20])] : List (List Nat × List Nat)).Pairwise
        (fun a b => ¬ ((fun k : List Nat => k.headD 1) a.1 =
            (fun k : List Nat => k.headD 1) b.1 ∧
          (fun _ : List Nat => 5) a.1 = (fun _ : List Nat => 5) b.1))) ∧
      (∀ kv ∈ ([([1], [10, 11]), ([2], [20])] : List (List Nat × List Nat)),
        Segment.get (fun k => k.headD 1) (fun _ => 5)
          (SegmentWriter.finalizeV2
            (addAll (fun k => k.headD 1) (fun _ => 5) [([1], [10, 11]), ([2], [20])]))
          kv.1 = some kv.2) :=
  ⟨by decide,
    C1_index_completeness (fun k => k.headD 1) (fun _ => 5)
      [([1], [10, 11]), ([2], [20])] (by decide) (by decide) (by decide)⟩

/-! ## resolver_store.rs -/

/-- Source `ResolveMode`. -/
inductive ResolveMode where
  | Union
  | Dedup
  | Intersect

/-- `Vec::dedup`: removal of adjacent duplicates (as used after a sorted
merge, this removes all duplicates). -/
def dedupAdj : List Nat → List Nat
  | [] => []
  | [x] => [x]
  | x :: y :: rest => if x = y then dedupAdj (y :: rest) else x :: dedupAdj (y :: rest)

/-- Source `ResolverStore::resolve`: fold `merge_sorted` over the decoded
postings of every reader that returns bytes for the key. The store's readers
are the opened active resolver segments. -/
def resolve (h64 fp64 : List Nat → Nat) (readers : List Segment)
    (key : List Nat) : List Nat :=
  readers.foldl (fun out r =>
    match r.get h64 fp64 key with
    | some v => merge_sorted out (decode_sorted_u64 v)
    | none => out) []

/-- Source `ResolverStore::resolve_with_mode_set`. The Intersect arm's
short-circuit `break` on an empty accumulator is rendered as a fold that
leaves an empty accumulator unchanged (`intersect_sorted [] v = []`, so the
results coincide). -/
def resolve_with_mode_set (h64 fp64 : List Nat → Nat) (readers : List Segment)
    (mode : ResolveMode) (keys : List (List Nat)) (set_semantics : Bool) :
    List Nat :=
  match mode with
  | ResolveMode.Union =>
    keys.foldl (fun acc k => merge_sorted acc (resolve h64 fp64 readers k)) []
  | ResolveMode.Dedup =>
    dedupAdj (keys.foldl (fun acc k => merge_sorted acc (resolve h64 fp64 readers k)) [])
  | ResolveMode.Intersect =>
    match keys with
    | [] => []
    | k0 :: rest =>
      let acc0 :=
        if set_semantics then dedupAdj (resolve h64 fp64 readers k0)
        else resolve h64 fp64 readers k0
      rest.foldl (fun acc k =>
        if acc = [] then acc
        else
          intersect_sorted acc
            (if set_semantics then dedupAdj (resolve h64 fp64 readers k)
             else resolve h64 fp64 readers k)) acc0

/-- Source `ResolverStore::resolve_with_mode` (set_semantics = false). -/
def resolve_with_mode (h64 fp64 : List Nat → Nat) (readers : List Segment)
    (mode : ResolveMode) (keys : List (List Nat)) : List Nat :=
  resolve_with_mode_set h64 fp64 readers mode keys false

/-- C10: Intersect over an empty key list returns the empty list for every
store and both set_semantics values, without failing and without consulting
any segment (the source returns vec![] before touching a reader). -/
theorem C10_intersect_empty_keys (h64 fp64 : List Nat → Nat)
    (readers : List Segment) (ss : Bool) :
    resolve_with_mode_set h64 fp64 readers ResolveMode.Intersect [] ss = [] := rfl

/-! ## Compaction (pru_cli Cmd::Compact) -/

/-- `lst.sort_unstable()` on u64s (the sorted value is what matters; for a
list of plain integers stability is unobservable). -/
def sortNat (l : List Nat) : List Nat :=
  l.mergeSort (fun a b => decide (a ≤ b))

/-- `mp.entry(h).and_modify(|acc| acc = merge_sorted(acc, lst)).or_insert(lst)`
on the accumulator map, modelled as an association list. -/
def mergeInto (acc : List (Nat × List Nat)) (h : Nat) (lst : List Nat) :
    List (Nat × List Nat) :=
  match acc with
  | [] => [(h, lst)]
  | (h', l') :: rest =>
    if h' = h then (h', merge_sorted l' lst) :: rest
    else (h', l') :: mergeInto rest h lst

def lookupAcc (acc : List (Nat × List Nat)) (h : Nat) : Option (List Nat) :=
  match acc with
  | [] => none
  | (h', l') :: rest => if h' = h then some l' else lookupAcc rest h

/-- The per-entry body of the compaction loop: `if let Some(val) =
r.value_at(e.off, e.size)` — note it does NOT call verify_crc_at — decode,
skip empty lists, sort, dedup (adjacent), merge into the accumulator under
e.hash. A panic aborts the command (none): either the value_at slice panic,
or the uvarint_decode index panic on a value whose bytes all carry the
continuation bit (decode_sorted_u64_p = none). -/
def compactEntries (file : List Nat) :
    List (Nat × List Nat) → List Item → Option (List (Nat × List Nat))
  | acc, [] => some acc
  | acc, e :: rest =>
    match value_at file e.off e.size with
    | RustOutcome.panic => none
    | RustOutcome.ret none => compactEntries file acc rest
    | RustOutcome.ret (some val) =>
      match decode_sorted_u64_p val with
      | none => none
      | some lst =>
        if lst = [] then compactEntries file acc rest
        else compactEntries file (mergeInto acc e.h (dedupAdj (sortNat lst))) rest

/-- The segment loop of Cmd::Compact over the manifest's resolver segments
(in manifest order), accumulating into the hash map. -/
def compactSegs : List (Nat × List Nat) → List Segment → Option (List (Nat × List Nat))
  | acc, [] => some acc
  | acc, s :: rest =>
    match compactEntries s.file acc s.iter with
    | none => none
    | some acc' => compactSegs acc' rest

/-- Writing the compacted segment: keys sorted ascending, each added with
`add_hashed(h, encode_sorted_u64(mp[h]))`, V1 index, XOR8 filter. -/
def writeCompacted (acc : List (Nat × List Nat)) : Segment :=
  (((acc.map (·.1)).mergeSort (fun a b => decide (a ≤ b))).foldl
    (fun w h => w.addItem h 0 (encode_sorted_u64 ((lookupAcc acc h).getD [])))
    SegmentWriter.create).finalizeV1

/-- Source `Cmd::Compact` over the manifest's segment records: only resolver
segments are read; with none the command fails with InvalidInput
("no resolver segments to compact"); otherwise the accumulator is written to
a fresh resolver-compact segment. The outer none is a value_at panic. -/
def compact_cmd (segs : List (SegmentKind × Segment)) :
    Option (Except String Segment) :=
  let rsegs := (segs.filter (fun p => decide (p.1 = SegmentKind.Resolver))).map (·.2)
  match compactSegs [] rsegs with
  | none => none
  | some acc =>
    if rsegs.length = 0 then some (Except.error "no resolver segments to compact")
    else some (Except.ok (writeCompacted acc))

/-! ### Concrete evaluation helpers for the codec -/

theorem uv0 : uvarint_encode 0 = [0] := by
  rw [uvarint_encode]; norm_num

theorem uv1 : uvarint_encode 1 = [1] := by
  rw [uvarint_encode]; norm_num

theorem uv2 : uvarint_encode 2 = [2] := by
  rw [uvarint_encode]; norm_num

theorem uv3 : uvarint_encode 3 = [3] := by
  rw [uvarint_encode]; norm_num

theorem enc13 : encode_sorted_u64 [1, 3] = [1, 2] := by
  simp only [encode_sorted_u64, encode_sorted_go]
  norm_num [uv1, uv2]

theorem enc135 : encode_sorted_u64 [1, 3, 5] = [1, 2, 2] := by
  simp only [encode_sorted_u64, encode_sorted_go]
  norm_num [uv1, uv2]

theorem enc357 : encode_sorted_u64 [3, 5, 7] = [3, 2, 2] := by
  simp only [encode_sorted_u64, encode_sorted_go]
  norm_num [uv3, uv2]

theorem enc_dups : encode_sorted_u64 [1, 3, 3, 5, 5, 7] = [1, 2, 0, 2, 0, 2] := by
  simp only [encode_sorted_u64, encode_sorted_go]
  norm_num [uv1, uv2, uv0]

theorem decode_of_encode (xs : List Nat) (hle : List.Chain' (· ≤ ·) xs) :
    decode_sorted_u64 (encode_sorted_u64 xs) = xs :=
  decode_encode_go xs 0 hle (fun y _ => Nat.zero_le y)

theorem dec12 : decode_sorted_u64 [1, 2] = [1, 3] := by
  have h := decode_of_encode [1, 3] (by norm_num [List.chain'_cons])
  rwa [enc13] at h

theorem dec122 : decode_sorted_u64 [1, 2, 2] = [1, 3, 5] := by
  have h := decode_of_encode [1, 3, 5] (by norm_num [List.chain'_cons])
  rwa [enc135] at h

theorem dec322 : decode_sorted_u64 [3, 2, 2] = [3, 5, 7] := by
  have h := decode_of_encode [3, 5, 7] (by norm_num [List.chain'_cons])
  rwa [enc357] at h

theorem dec_dups : decode_sorted_u64 [1, 2, 0, 2, 0, 2] = [1, 3, 3, 5, 5, 7] := by
  have h := decode_of_encode [1, 3, 3, 5, 5, 7] (by norm_num [List.chain'_cons])
  rwa [enc_dups] at h

theorem decP_nil : decode_sorted_u64_p [] = some [] :=
  decode_go_p_nil 0

theorem dec12p : decode_sorted_u64_p [1, 2] = some [1, 3] := by
  have h := decode_p_of_encode [1, 3] (by norm_num [List.chain'_cons])
  rwa [enc13] at h

theorem dec128p : decode_sorted_u64_p [128] = none :=
  decode_go_p_panic [128] 0 (by decide) (by decide)

theorem sortNat13 : sortNat [1, 3] = [1, 3] :=
  List.mergeSort_of_sorted (by decide)

theorem sortNat135 : sortNat [1, 3, 5] = [1, 3, 5] :=
  List.mergeSort_of_sorted (by decide)

theorem sortNat357 : sortNat [3, 5, 7] = [3, 5, 7] :=
  List.mergeSort_of_sorted (by decide)

/-! ### CRC-failed records are not skipped (C3) -/

/-- A resolver segment with a single live entry whose 4 trailing CRC bytes
are corrupt (the stored [9,9,9,9] is not crc32([1,2])): value bytes [1,2]
decode to the posting list [1,3]. -/
def segC3 : Segment :=
  ⟨List.replicate 48 0 ++ [1, 2] ++ [9, 9, 9, 9], 1, 1, [⟨5, 0, 48, 6⟩], [5]⟩

theorem segC3_value_at : value_at segC3.file 48 6 = RustOutcome.ret (some [1, 2]) := by
  decide

theorem compactEntries_cons_none (file : List Nat) (acc : List (Nat × List Nat))
    (e : Item) (rest : List Item)
    (hva : value_at file e.off e.size = RustOutcome.ret none) :
    compactEntries file acc (e :: rest) = compactEntries file acc rest := by
  show (match value_at file e.off e.size with
    | RustOutcome.panic => none
    | RustOutcome.ret none => compactEntries file acc rest
    | RustOutcome.ret (some val) =>
      match decode_sorted_u64_p val with
      | none => none
      | some lst =>
        if lst = [] then compactEntries file acc rest
        else compactEntries file
          (mergeInto acc e.h (dedupAdj (sortNat lst))) rest) = compactEntries file acc rest
  rw [hva]

theorem compactEntries_cons_some (file : List Nat) (acc : List (Nat × List Nat))
    (e : Item) (rest : List Item) (v l : List Nat)
    (hva : value_at file e.off e.size = RustOutcome.ret (some v))
    (hdec : decode_sorted_u64_p v = some l) (hne : l ≠ []) :
    compactEntries file acc (e :: rest) =
      compactEntries file (mergeInto acc e.h (dedupAdj (sortNat l))) rest := by
  show (match value_at file e.off e.size with
    | RustOutcome.panic => none
    | RustOutcome.ret none => compactEntries file acc rest
    | RustOutcome.ret (some val) =>
      match decode_sorted_u64_p val with
      | none => none
      | some lst =>
        if lst = [] then compactEntries file acc rest
        else compactEntries file
          (mergeInto acc e.h (dedupAdj (sortNat lst))) rest) = _
  rw [hva]
  show (match decode_sorted_u64_p v with
    | none => none
    | some lst =>
      if lst = [] then compactEntries file acc rest
      else compactEntries file
        (mergeInto acc e.h (dedupAdj (sortNat lst))) rest) = _
  rw [hdec]
  show (if l = [] then compactEntries file acc rest
    else compactEntries file (mergeInto acc e.h (dedupAdj (sortNat l))) rest) = _
  rw [if_neg hne]

theorem compactEntries_cons_empty (file : List Nat) (acc : List (Nat × List Nat))
    (e : Item) (rest : List Item) (v : List Nat)
    (hva : value_at file e.off e.size = RustOutcome.ret (some v))
    (hdec : decode_sorted_u64_p v = some []) :
    compactEntries file acc (e :: rest) = compactEntries file acc rest := by
  show (match value_at file e.off e.size with
    | RustOutcome.panic => none
    | RustOutcome.ret none => compactEntries file acc rest
    | RustOutcome.ret (some val) =>
      match decode_sorted_u64_p val with
      | none => none
      | some lst =>
        if lst = [] then compactEntries file acc rest
        else compactEntries file
          (mergeInto acc e.h (dedupAdj (sortNat lst))) rest) = compactEntries file acc rest
  rw [hva]
  show (match decode_sorted_u64_p v with
    | none => none
    | some lst =>
      if lst = [] then compactEntries file acc rest
      else compactEntries file
        (mergeInto acc e.h (dedupAdj (sortNat lst))) rest) = compactEntries file acc rest
  rw [hdec]
  show (if ([] : List Nat) = [] then compactEntries file acc rest
    else compactEntries file (mergeInto acc e.h (dedupAdj (sortNat []))) rest) =
    compactEntries file acc rest
  rw [if_pos rfl]

theorem compactEntries_cons_panic (file : List Nat) (acc : List (Nat × List Nat))
    (e : Item) (rest : List Item) (v : List Nat)
    (hva : value_at file e.off e.size = RustOutcome.ret (some v))
    (hdec : decode_sorted_u64_p v = none) :
    compactEntries file acc (e :: rest) = none := by
  show (match value_at file e.off e.size with
    | RustOutcome.panic => none
    | RustOutcome.ret none => compactEntries file acc rest
    | RustOutcome.ret (some val) =>
      match decode_sorted_u64_p val with
      | none => none
      | some lst =>
        if lst = [] then compactEntries file acc rest
        else compactEntries file
          (mergeInto acc e.h (dedupAdj (sortNat lst))) rest) = none
  rw [hva]
  show (match decode_sorted_u64_p v with
    | none => none
    | some lst =>
      if lst = [] then compactEntries file acc rest
      else compactEntries file
        (mergeInto acc e.h (dedupAdj (sortNat lst))) rest) = none
  rw [hdec]

theorem compact_cmd_ok (segs : List (SegmentKind × Segment))
    (acc' : List (Nat × List Nat))
    (hne : (segs.filter (fun p => decide (p.1 = SegmentKind.Resolver))).map (·.2) ≠ [])
    (hacc : compactSegs []
        ((segs.filter (fun p => decide (p.1 = SegmentKind.Resolver))).map (·.2)) =
      some acc') :
    compact_cmd segs = some (Except.ok (writeCompacted acc')) := by
  unfold compact_cmd
  show (match compactSegs []
      ((segs.filter (fun p => decide (p.1 = SegmentKind.Resolver))).map (·.2)) with
    | none => none
    | some acc =>
      if ((segs.filter (fun p => decide (p.1 = SegmentKind.Resolver))).map
          (·.2)).length = 0 then
        some (Except.error "no resolver segments to compact")
      else some (Except.ok (writeCompacted acc))) =
    some (Except.ok (writeCompacted acc'))
  rw [hacc]
  show (if ((segs.filter (fun p => decide (p.1 = SegmentKind.Resolver))).map
      (·.2)).length = 0 then
      some (Except.error "no resolver segments to compact")
    else some (Except.ok (writeCompacted acc'))) =
    some (Except.ok (writeCompacted acc'))
  rw [if_neg (by
    intro hlen
    exact hne (List.length_eq_zero.mp hlen))]

theorem compact_cmd_panic (segs : List (SegmentKind × Segment))
    (hacc : compactSegs []
        ((segs.filter (fun p => decide (p.1 = SegmentKind.Resolver))).map (·.2)) =
      none) :
    compact_cmd segs = none := by
  unfold compact_cmd
  show (match compactSegs []
      ((segs.filter (fun p => decide (p.1 = SegmentKind.Resolver))).map (·.2)) with
    | none => none
    | some acc =>
      if ((segs.filter (fun p => decide (p.1 = SegmentKind.Resolver))).map
          (·.2)).length = 0 then
        some (Except.error "no resolver segments to compact")
      else some (Except.ok (writeCompacted acc))) = none
  rw [hacc]

theorem segC3_compact : compactSegs [] [segC3] = some [(5, [1, 3])] := by
  have hiter : segC3.iter = [⟨5, 0, 48, 6⟩] := by decide
  have hentry : compactEntries segC3.file [] [⟨5, 0, 48, 6⟩] = some [(5, [1, 3])] := by
    rw [compactEntries_cons_some segC3.file [] ⟨5, 0, 48, 6⟩ [] [1, 2] [1, 3]
      segC3_value_at dec12p (by simp)]
    rw [sortNat13, show dedupAdj [1, 3] = [1, 3] from by decide]
    rfl
  show (match compactEntries segC3.file [] segC3.iter with
    | none => none
    | some acc' => compactSegs acc' []) = some [(5, [1, 3])]
  rw [hiter, hentry]
  rfl

/-- C3 counterexample: a live entry whose record fails CRC verification is
NOT skipped by compaction — its decoded list appears in the compacted
accumulator (the compact loop never calls verify_crc_at; spec section 9
itself notes "Compaction does not verify CRC before merging"). -/
theorem C3_crc_failed_record_not_skipped :
    verify_crc_at segC3.file 48 6 = RustOutcome.ret false ∧
      compactSegs [] [segC3] = some [(5, [1, 3])] ∧
      ([(5, [1, 3])] : List (Nat × List Nat)) ≠ [] :=
  ⟨by decide, segC3_compact, by simp⟩

/-- A resolver segment whose single in-bounds record is corrupt in a harsher
way: besides its CRC bytes being wrong, its one value byte 0x80 carries the
varint continuation bit, so `uvarint_decode` reads past the value. -/
def segC3bad : Segment :=
  ⟨List.replicate 48 0 ++ [128] ++ [9, 9, 9, 9], 1, 1, [⟨5, 0, 48, 5⟩], [5]⟩

theorem segC3bad_value_at :
    value_at segC3bad.file 48 5 = RustOutcome.ret (some [128]) := by
  decide

theorem segC3bad_compact : compactSegs [] [segC3bad] = none := by
  have hiter : segC3bad.iter = [⟨5, 0, 48, 5⟩] := by decide
  have hentry : compactEntries segC3bad.file [] [⟨5, 0, 48, 5⟩] = none :=
    compactEntries_cons_panic segC3bad.file [] ⟨5, 0, 48, 5⟩ [] [128]
      segC3bad_value_at dec128p
  show (match compactEntries segC3bad.file [] segC3bad.iter with
    | none => none
    | some acc' => compactSegs acc' []) = none
  rw [hiter, hentry]

/-- C3 amended: compaction never consults CRC. For each live entry the loop
calls value_at only: the entry is skipped silently exactly when value_at
returns None (record out of bounds) or its value decodes to the empty
posting list; an in-bounds record whose value decodes to a non-empty list
is sorted, deduplicated and merged into the output whether or not its CRC
matches (the corrupt segC3 record, whose verify_crc_at is false, lands in
the accumulator and the command returns Ok). Nor is success guaranteed on
corrupt data: an in-bounds record whose value bytes all carry the varint
continuation bit makes uvarint_decode read past the buffer — a panic,
aborting the command, as the CRC-failed segC3bad shows. Absent such panics
the command errors only when no resolver segment is listed. -/
theorem C3_compact_ignores_crc (file : List Nat)
    (acc : List (Nat × List Nat)) (e : Item) (rest : List Item) :
    (value_at file e.off e.size = RustOutcome.ret none →
      compactEntries file acc (e :: rest) = compactEntries file acc rest) ∧
    (∀ v, value_at file e.off e.size = RustOutcome.ret (some v) →
      decode_sorted_u64_p v = some [] →
      compactEntries file acc (e :: rest) = compactEntries file acc rest) ∧
    (∀ v l, value_at file e.off e.size = RustOutcome.ret (some v) →
      decode_sorted_u64_p v = some l → l ≠ [] →
      compactEntries file acc (e :: rest) =
        compactEntries file (mergeInto acc e.h (dedupAdj (sortNat l))) rest) ∧
    (∀ v, value_at file e.off e.size = RustOutcome.ret (some v) →
      decode_sorted_u64_p v = none →
      compactEntries file acc (e :: rest) = none) ∧
    (verify_crc_at segC3.file 48 6 = RustOutcome.ret false ∧
      compact_cmd [(SegmentKind.Resolver, segC3)] =
        some (Except.ok (writeCompacted [(5, [1, 3])]))) ∧
    (verify_crc_at segC3bad.file 48 5 = RustOutcome.ret false ∧
      compact_cmd [(SegmentKind.Resolver, segC3bad)] = none) ∧
    (∀ (segs : List (SegmentKind × Segment)) (acc' : List (Nat × List Nat)),
      (segs.filter (fun p => decide (p.1 = SegmentKind.Resolver))).map (·.2) ≠ [] →
      compactSegs []
          ((segs.filter (fun p => decide (p.1 = SegmentKind.Resolver))).map (·.2)) =
        some acc' →
      compact_cmd segs = some (Except.ok (writeCompacted acc'))) := by
  refine ⟨?_, ?_, ?_, ?_, ⟨?_, ?_⟩, ⟨?_, ?_⟩, ?_⟩
  · exact compactEntries_cons_none file acc e rest
  · exact fun v hva hdec => compactEntries_cons_empty file acc e rest v hva hdec
  · exact fun v l hva hdec hne =>
      compactEntries_cons_some file acc e rest v l hva hdec hne
  · exact fun v hva hdec => compactEntries_cons_panic file acc e rest v hva hdec
  · decide
  · exact compact_cmd_ok [(SegmentKind.Resolver, segC3)] [(5, [1, 3])] (by decide)
      (by simpa using segC3_compact)
  · decide
  · exact compact_cmd_panic [(SegmentKind.Resolver, segC3bad)]
      (by simpa using segC3bad_compact)
  · exact fun segs acc' hne hacc => compact_cmd_ok segs acc' hne hacc

/-- Witness for the amended C3: a bounds-bad entry is skipped; an in-bounds
record with an empty value is skipped; the CRC-failed segC3 entry is merged
and its one-segment compaction succeeds; the CRC-failed segC3bad entry makes
decoding panic and its compaction aborts. -/
theorem C3_compact_ignores_crc_witness :
    (value_at ([] : List Nat) 0 5 = RustOutcome.ret none ∧
      compactEntries [] [] (⟨5, 0, 0, 5⟩ :: []) = compactEntries [] [] []) ∧
    (value_at (List.replicate 48 0 ++ [9, 9, 9, 9]) 48 4 =
        RustOutcome.ret (some []) ∧
      decode_sorted_u64_p [] = some [] ∧
      compactEntries (List.replicate 48 0 ++ [9, 9, 9, 9]) [] (⟨5, 0, 48, 4⟩ :: []) =
        compactEntries (List.replicate 48 0 ++ [9, 9, 9, 9]) [] []) ∧
    (value_at segC3.file 48 6 = RustOutcome.ret (some [1, 2]) ∧
      decode_sorted_u64_p [1, 2] = some [1, 3] ∧ ([1, 3] : List Nat) ≠ [] ∧
      compactEntries segC3.file [] (⟨5, 0, 48, 6⟩ :: []) =
        compactEntries segC3.file (mergeInto [] 5 (dedupAdj (sortNat [1, 3]))) []) ∧
    (value_at segC3bad.file 48 5 = RustOutcome.ret (some [128]) ∧
      decode_sorted_u64_p [128] = none ∧
      compactEntries segC3bad.file [] (⟨5, 0, 48, 5⟩ :: []) = none) ∧
    (verify_crc_at segC3.file 48 6 = RustOutcome.ret false ∧
      compact_cmd [(SegmentKind.Resolver, segC3)] =
        some (Except.ok (writeCompacted [(5, [1, 3])]))) ∧
    (verify_crc_at segC3bad.file 48 5 = RustOutcome.ret false ∧
      compact_cmd [(SegmentKind.Resolver, segC3bad)] = none) ∧
    (([(SegmentKind.Resolver, segC3)].filter
        (fun p => decide (p.1 = SegmentKind.Resolver))).map (·.2) ≠ [] ∧
      compactSegs []
          (([(SegmentKind.Resolver, segC3)].filter
            (fun p => decide (p.1 = SegmentKind.Resolver))).map (·.2)) =
        some [(5, [1, 3])] ∧
      compact_cmd [(SegmentKind.Resolver, segC3)] =
        some (Except.ok (writeCompacted [(5, [1, 3])]))) :=
  ⟨⟨by decide, (C3_compact_ignores_crc [] [] ⟨5, 0, 0, 5⟩ []).1 (by decide)⟩,
   ⟨by decide, decP_nil,
    (C3_compact_ignores_crc (List.replicate 48 0 ++ [9, 9, 9, 9]) []
      ⟨5, 0, 48, 4⟩ []).2.1 [] (by decide) decP_nil⟩,
   ⟨segC3_value_at, dec12p, by simp,
    (C3_compact_ignores_crc segC3.file [] ⟨5, 0, 48, 6⟩ []).2.2.1 [1, 2] [1, 3]
      segC3_value_at dec12p (by simp)⟩,
   ⟨segC3bad_value_at, dec128p,
    (C3_compact_ignores_crc segC3bad.file [] ⟨5, 0, 48, 5⟩ []).2.2.2.1 [128]
      segC3bad_value_at dec128p⟩,
   (C3_compact_ignores_crc [] [] ⟨5, 0, 0, 5⟩ []).2.2.2.2.1,
   (C3_compact_ignores_crc [] [] ⟨5, 0, 0, 5⟩ []).2.2.2.2.2.1,
   ⟨by decide, by simpa using segC3_compact,
    (C3_compact_ignores_crc [] [] ⟨5, 0, 0, 5⟩ []).2.2.2.2.2.2
      [(SegmentKind.Resolver, segC3)] [(5, [1, 3])] (by decide)
      (by simpa using segC3_compact)⟩⟩

/-! ### Compaction of two one-entry segments (C2) -/

theorem hashCap_one : hashCap 1 = 2 := by
  show capGo 1 (1 * 5 / 4 + 1) = 2
  norm_num
  rw [capGo]
  norm_num
  rw [capGo]
  norm_num

theorem two_pow_one : (2 : Nat) = 2 ^ 1 := rfl

theorem single_table (hK fpK off size : Nat) :
    buildTable 2 [⟨hK, fpK, off, size⟩] =
      if hK % 2 = 0 then [⟨hK, fpK, off, size⟩, emptySlot]
      else [emptySlot, ⟨hK, fpK, off, size⟩] := by
  unfold buildTable
  rw [List.foldl_cons, List.foldl_nil, mask_mod two_pow_one]
  have hrep : List.replicate 2 emptySlot = [emptySlot, emptySlot] := rfl
  rcases Nat.mod_two_eq_zero_or_one hK with h | h
  · rw [h, if_pos rfl, probeInsert, if_pos (by rw [hrep]; rfl)]
    rw [hrep]
    rfl
  · rw [h, if_neg (by norm_num), probeInsert, if_pos (by rw [hrep]; rfl)]
    rw [hrep]
    rfl

theorem single_iter (hK fpK : Nat) (hnz : hK ≠ 0) (v : List Nat) :
    ((SegmentWriter.create.addItem hK fpK v).finalizeV2).iter =
      [⟨hK, fpK, 48, (v.length + 4) % 2 ^ 32⟩] := by
  have hitems : (SegmentWriter.create.addItem hK fpK v).items =
      [⟨hK, fpK, 48, (v.length + 4) % 2 ^ 32⟩] := by
    simp [SegmentWriter.addItem, SegmentWriter.create, HDR_SIZE]
  show ((build_hashtable_v2 (SegmentWriter.create.addItem hK fpK v).items).2).filter
    (fun e => decide (¬ e.h = 0)) = _
  rw [hitems]
  show (buildTable (hashCap 1) [⟨hK, fpK, 48, (v.length + 4) % 2 ^ 32⟩]).filter
    (fun e => decide (¬ e.h = 0)) = _
  rw [hashCap_one, single_table]
  rcases Nat.mod_two_eq_zero_or_one hK with h | h
  · rw [if_pos h]
    simp [List.filter_cons, hnz, emptySlot]
  · rw [if_neg (by omega)]
    simp [List.filter_cons, hnz, emptySlot]

theorem single_file (hK fpK : Nat) (v : List Nat) :
    ((SegmentWriter.create.addItem hK fpK v).finalizeV2).file =
      List.replicate 48 0 ++ (v ++ u32_le_bytes (crc32 v)) := rfl

theorem single_value_at (hK fpK : Nat) (v : List Nat)
    (hlen : v.length + 4 < 2 ^ 32) :
    value_at ((SegmentWriter.create.addItem hK fpK v).finalizeV2).file 48
      ((v.length + 4) % 2 ^ 32) = RustOutcome.ret (some v) := by
  rw [single_file]
  have hmod : (v.length + 4) % 2 ^ 32 = v.length + 4 := Nat.mod_eq_of_lt hlen
  rw [hmod]
  have hflen : (List.replicate 48 (0 : Nat) ++ (v ++ u32_le_bytes (crc32 v))).length =
      48 + v.length + 4 := by
    simp [u32_le_bytes]
    omega
  unfold value_at
  rw [if_neg (by omega), if_neg (by rw [hflen]; omega)]
  have hslice : rustSlice (List.replicate 48 0 ++ (v ++ u32_le_bytes (crc32 v))) 48
      (48 + (v.length + 4) - 4) = some v := by
    unfold rustSlice
    rw [if_pos ⟨by omega, by rw [hflen]; omega⟩]
    rw [show 48 + (v.length + 4) - 4 - 48 = v.length from by omega]
    rw [List.drop_left' (by simp : (List.replicate 48 (0 : Nat)).length = 48)]
    rw [List.take_left' rfl]
  rw [hslice]

theorem compact_single_seg (hK fpK : Nat) (hnz : hK ≠ 0) (v l : List Nat)
    (hlen : v.length + 4 < 2 ^ 32) (acc : List (Nat × List Nat))
    (hdec : decode_sorted_u64_p v = some l) (hne : l ≠ []) :
    compactEntries ((SegmentWriter.create.addItem hK fpK v).finalizeV2).file acc
      ((SegmentWriter.create.addItem hK fpK v).finalizeV2).iter =
      some (mergeInto acc hK (dedupAdj (sortNat l))) := by
  rw [single_iter hK fpK hnz v]
  rw [compactEntries_cons_some _ acc ⟨hK, fpK, 48, (v.length + 4) % 2 ^ 32⟩ [] v l
    (single_value_at hK fpK v hlen) hdec hne]
  rfl

set_option maxRecDepth 8000 in
theorem merge135_357 : merge_sorted [1, 3, 5] [3, 5, 7] = [1, 3, 3, 5, 5, 7] := by
  norm_num [merge_sorted]

theorem compactSegs_two_single (hK fpK : Nat) (hnz : hK ≠ 0) :
    compactSegs []
      [(SegmentWriter.create.addItem hK fpK (encode_sorted_u64 [1, 3, 5])).finalizeV2,
       (SegmentWriter.create.addItem hK fpK (encode_sorted_u64 [3, 5, 7])).finalizeV2] =
      some [(hK, [1, 3, 3, 5, 5, 7])] := by
  have hlen1 : (encode_sorted_u64 [1, 3, 5]).length + 4 < 2 ^ 32 := by
    rw [enc135]; norm_num
  have hlen2 : (encode_sorted_u64 [3, 5, 7]).length + 4 < 2 ^ 32 := by
    rw [enc357]; norm_num
  have hdecv1 : decode_sorted_u64_p (encode_sorted_u64 [1, 3, 5]) = some [1, 3, 5] :=
    decode_p_of_encode [1, 3, 5] (by norm_num [List.chain'_cons])
  have hdecv2 : decode_sorted_u64_p (encode_sorted_u64 [3, 5, 7]) = some [3, 5, 7] :=
    decode_p_of_encode [3, 5, 7] (by norm_num [List.chain'_cons])
  show (match compactEntries
      ((SegmentWriter.create.addItem hK fpK (encode_sorted_u64 [1, 3, 5])).finalizeV2).file
      []
      ((SegmentWriter.create.addItem hK fpK (encode_sorted_u64 [1, 3, 5])).finalizeV2).iter with
    | none => none
    | some acc' => compactSegs acc'
        [(SegmentWriter.create.addItem hK fpK (encode_sorted_u64 [3, 5, 7])).finalizeV2]) =
    some [(hK, [1, 3, 3, 5, 5, 7])]
  rw [compact_single_seg hK fpK hnz _ [1, 3, 5] hlen1 [] hdecv1 (by simp)]
  rw [sortNat135, show dedupAdj [1, 3, 5] = [1, 3, 5] from by decide]
  show compactSegs (mergeInto [] hK [1, 3, 5])
    [(SegmentWriter.create.addItem hK fpK (encode_sorted_u64 [3, 5, 7])).finalizeV2] =
    some [(hK, [1, 3, 3, 5, 5, 7])]
  show (match compactEntries
      ((SegmentWriter.create.addItem hK fpK (encode_sorted_u64 [3, 5, 7])).finalizeV2).file
      (mergeInto [] hK [1, 3, 5])
      ((SegmentWriter.create.addItem hK fpK (encode_sorted_u64 [3, 5, 7])).finalizeV2).iter with
    | none => none
    | some acc' => compactSegs acc' []) =
    some [(hK, [1, 3, 3, 5, 5, 7])]
  rw [compact_single_seg hK fpK hnz _ [3, 5, 7] hlen2 (mergeInto [] hK [1, 3, 5])
    hdecv2 (by simp)]
  rw [sortNat357, show dedupAdj [3, 5, 7] = [3, 5, 7] from by decide]
  show some (mergeInto (mergeInto [] hK [1, 3, 5]) hK [3, 5, 7]) =
    some [(hK, [1, 3, 3, 5, 5, 7])]
  show some (mergeInto [(hK, [1, 3, 5])] hK [3, 5, 7]) =
    some [(hK, [1, 3, 3, 5, 5, 7])]
  unfold mergeInto
  rw [if_pos rfl, merge135_357]

theorem writeCompacted_single_dups (hK : Nat) :
    writeCompacted [(hK, [1, 3, 3, 5, 5, 7])] =
      (SegmentWriter.create.addItem hK 0 [1, 2, 0, 2, 0, 2]).finalizeV1 := by
  unfold writeCompacted
  rw [show ([(hK, [1, 3, 3, 5, 5, 7])].map (fun p => p.1)) = [hK] from rfl,
    List.mergeSort_singleton, List.foldl_cons, List.foldl_nil]
  rw [show lookupAcc [(hK, [1, 3, 3, 5, 5, 7])] hK = some [1, 3, 3, 5, 5, 7] from by
    unfold lookupAcc
    rw [if_pos rfl]]
  rw [show (some ([1, 3, 3, 5, 5, 7] : List Nat)).getD [] = [1, 3, 3, 5, 5, 7] from rfl,
    enc_dups]

theorem compacted_get (hK : Nat) (hnz : hK ≠ 0) (h64 fp64 : List Nat → Nat)
    (K : List Nat) (hh : h64 K = hK) :
    Segment.get h64 fp64
      ((SegmentWriter.create.addItem hK 0 [1, 2, 0, 2, 0, 2]).finalizeV1) K =
      some [1, 2, 0, 2, 0, 2] := by
  have hitems : (SegmentWriter.create.addItem hK 0 [1, 2, 0, 2, 0, 2]).items =
      [⟨hK, 0, 48, 10⟩] := by
    simp [SegmentWriter.addItem, SegmentWriter.create, HDR_SIZE]
  have hdig : ((SegmentWriter.create.addItem hK 0 [1, 2, 0, 2, 0, 2]).finalizeV1).digests
      = [hK] := by
    show ((SegmentWriter.create.addItem hK 0 [1, 2, 0, 2, 0, 2]).items).map (·.h) = [hK]
    rw [hitems]
    rfl
  have htable :
      ((SegmentWriter.create.addItem hK 0 [1, 2, 0, 2, 0, 2]).finalizeV1).table =
        buildTable 2 [⟨hK, 0, 48, 10⟩] := by
    show (build_hashtable_v1 (SegmentWriter.create.addItem hK 0 [1, 2, 0, 2, 0, 2]).items).2
      = buildTable 2 [⟨hK, 0, 48, 10⟩]
    rw [hitems]
    show buildTable (hashCap ([(⟨hK, 0, 48, 10⟩ : Item)] : List Item).length)
      (([(⟨hK, 0, 48, 10⟩ : Item)] : List Item).map
        (fun it => (⟨it.h, 0, it.off, it.size⟩ : Item))) = _
    rw [show ([(⟨hK, 0, 48, 10⟩ : Item)] : List Item).length = 1 from rfl, hashCap_one]
    rfl
  have hcap :
      ((SegmentWriter.create.addItem hK 0 [1, 2, 0, 2, 0, 2]).finalizeV1).cap = 2 := by
    show (build_hashtable_v1 (SegmentWriter.create.addItem hK 0 [1, 2, 0, 2, 0, 2]).items).1
      = 2
    rw [hitems]
    exact hashCap_one
  have hprobe : getProbe 1 2 (buildTable 2 [⟨hK, 0, 48, 10⟩]) hK (fp64 K)
      (hK &&& 1) 2 = some (48, 10) := by
    rw [mask_mod two_pow_one, single_table]
    rcases Nat.mod_two_eq_zero_or_one hK with h | h
    · rw [if_pos h, h]
      rw [getProbe, if_neg (by

          show ¬ (slotAt [⟨hK, 0, 48, 10⟩, emptySlot] 0).h = 0
          exact hnz), if_pos rfl,
        if_pos (show (slotAt [⟨hK, 0, 48, 10⟩, emptySlot] 0).h = hK from rfl)]
      rfl
    · rw [if_neg (by omega), h]
      rw [getProbe, if_neg (by

          show ¬ (slotAt [emptySlot, ⟨hK, 0, 48, 10⟩] 1).h = 0
          exact hnz), if_pos rfl,
        if_pos (show (slotAt [emptySlot, ⟨hK, 0, 48, 10⟩] 1).h = hK from rfl)]
      rfl
  unfold Segment.get
  rw [hh, hdig]
  rw [if_neg (by simp)]
  rw [if_neg (by
    show ¬ (((SegmentWriter.create.addItem hK 0 [1, 2, 0, 2, 0, 2]).finalizeV1).index_kind
        ≠ 1 ∧ _)
    simp [SegmentWriter.finalizeV1])]
  rw [if_neg (by rw [hcap]; norm_num)]
  rw [show ((SegmentWriter.create.addItem hK 0 [1, 2, 0, 2, 0, 2]).finalizeV1).index_kind
      = 1 from rfl, hcap, htable, hprobe]
  show some ((((SegmentWriter.create.addItem hK 0
      [1, 2, 0, 2, 0, 2]).finalizeV1).file.drop 48).take (10 - 4)) =
    some [1, 2, 0, 2, 0, 2]
  rw [show ((SegmentWriter.create.addItem hK 0 [1, 2, 0, 2, 0, 2]).finalizeV1).file =
      List.replicate 48 0 ++ ([1, 2, 0, 2, 0, 2] ++
        u32_le_bytes (crc32 [1, 2, 0, 2, 0, 2])) from rfl]
  rw [List.drop_left' (by simp : (List.replicate 48 (0 : Nat)).length = 48)]
  rw [show (10 : Nat) - 4 = 6 from rfl]
  rw [List.take_left' (show (([1, 2, 0, 2, 0, 2] : List Nat)).length = 6 from rfl)]

theorem C2_core (hK fpK : Nat) (hnz : hK ≠ 0) (h64 fp64 : List Nat → Nat)
    (K : List Nat) (hh : h64 K = hK) :
    compact_cmd
      [(SegmentKind.Resolver,
        (SegmentWriter.create.addItem hK fpK (encode_sorted_u64 [1, 3, 5])).finalizeV2),
       (SegmentKind.Resolver,
        (SegmentWriter.create.addItem hK fpK (encode_sorted_u64 [3, 5, 7])).finalizeV2)] =
      some (Except.ok (writeCompacted [(hK, [1, 3, 3, 5, 5, 7])])) ∧
    Segment.get h64 fp64 (writeCompacted [(hK, [1, 3, 3, 5, 5, 7])]) K =
      some [1, 2, 0, 2, 0, 2] ∧
    decode_sorted_u64 [1, 2, 0, 2, 0, 2] = [1, 3, 3, 5, 5, 7] := by
  refine ⟨?_, ?_, dec_dups⟩
  · unfold compact_cmd
    have hfil : (([(SegmentKind.Resolver,
          (SegmentWriter.create.addItem hK fpK (encode_sorted_u64 [1, 3, 5])).finalizeV2),
        (SegmentKind.Resolver,
          (SegmentWriter.create.addItem hK fpK (encode_sorted_u64 [3, 5, 7])).finalizeV2)]
        : List (SegmentKind × Segment)).filter
          (fun p => decide (p.1 = SegmentKind.Resolver))).map (·.2) =
        [(SegmentWriter.create.addItem hK fpK (encode_sorted_u64 [1, 3, 5])).finalizeV2,
         (SegmentWriter.create.addItem hK fpK (encode_sorted_u64 [3, 5, 7])).finalizeV2] :=
      rfl
    show (match compactSegs []
        ((([(SegmentKind.Resolver,
            (SegmentWriter.create.addItem hK fpK (encode_sorted_u64 [1, 3, 5])).finalizeV2),
          (SegmentKind.Resolver,
            (SegmentWriter.create.addItem hK fpK (encode_sorted_u64 [3, 5, 7])).finalizeV2)]
          : List (SegmentKind × Segment)).filter
            (fun p => decide (p.1 = SegmentKind.Resolver))).map (·.2)) with
      | none => none
      | some acc =>
        if ((([(SegmentKind.Resolver,
            (SegmentWriter.create.addItem hK fpK (encode_sorted_u64 [1, 3, 5])).finalizeV2),
          (SegmentKind.Resolver,
            (SegmentWriter.create.addItem hK fpK (encode_sorted_u64 [3, 5, 7])).finalizeV2)]
          : List (SegmentKind × Segment)).filter
            (fun p => decide (p.1 = SegmentKind.Resolver))).map (·.2)).length = 0 then
          some (Except.error "no resolver segments to compact")
        else some (Except.ok (writeCompacted acc))) =
      some (Except.ok (writeCompacted [(hK, [1, 3, 3, 5, 5, 7])]))
    rw [hfil, compactSegs_two_single hK fpK hnz]
    show (if ([(SegmentWriter.create.addItem hK fpK (encode_sorted_u64 [1, 3, 5])).finalizeV2,
        (SegmentWriter.create.addItem hK fpK (encode_sorted_u64 [3, 5, 7])).finalizeV2]
        : List Segment).length = 0 then
        some (Except.error "no resolver segments to compact")
      else some (Except.ok (writeCompacted [(hK, [1, 3, 3, 5, 5, 7])]))) =
      some (Except.ok (writeCompacted [(hK, [1, 3, 3, 5, 5, 7])]))
    rw [if_neg (by norm_num)]
  · rw [writeCompacted_single_dups]
    exact compacted_get hK hnz h64 fp64 K hh

/-- C2 counterexample: two resolver segments holding the same key (digest 7,
fingerprint 9) with posting lists [1,3,5] and [3,5,7]. After compaction the
output segment's entry for that hash holds the encoding of [1,3,3,5,5,7] —
per-entry sort+dedup happens before the cross-segment merge_sorted, which
preserves duplicates — and decodes to [1,3,3,5,5,7], not the claimed
[1,3,5,7]. -/
theorem C2_compaction_keeps_cross_segment_duplicates :
    compact_cmd
        [(SegmentKind.Resolver,
          (SegmentWriter.create.addItem 7 9 (encode_sorted_u64 [1, 3, 5])).finalizeV2),
         (SegmentKind.Resolver,
          (SegmentWriter.create.addItem 7 9 (encode_sorted_u64 [3, 5, 7])).finalizeV2)] =
      some (Except.ok (writeCompacted [(7, [1, 3, 3, 5, 5, 7])])) ∧
    Segment.get (fun _ => 7) (fun _ => 9) (writeCompacted [(7, [1, 3, 3, 5, 5, 7])]) [0] =
      some [1, 2, 0, 2, 0, 2] ∧
    decode_sorted_u64 [1, 2, 0, 2, 0, 2] = [1, 3, 3, 5, 5, 7] ∧
    ([1, 3, 3, 5, 5, 7] : List Nat) ≠ [1, 3, 5, 7] :=
  ⟨(C2_core 7 9 (by norm_num) (fun _ => 7) (fun _ => 9) [0] rfl).1,
   (C2_core 7 9 (by norm_num) (fun _ => 7) (fun _ => 9) [0] rfl).2.1,
   (C2_core 7 9 (by norm_num) (fun _ => 7) (fun _ => 9) [0] rfl).2.2,
   by decide⟩

/-- C2 amended: with the two one-key segments of the claim, the compacted
segment's entry for h(K) decodes to [1,3,3,5,5,7]: each entry's list is
sorted and deduplicated on its own, but the cross-segment merge uses
merge_sorted, which preserves duplicates. (h(K) ranges over any non-zero
hash value; the reading key K is any key with that hash.) -/
theorem C2_compaction_merge_amended (hK fpK : Nat) (hnz : hK ≠ 0)
    (h64 fp64 : List Nat → Nat) (K : List Nat) (hh : h64 K = hK) :
    compact_cmd
        [(SegmentKind.Resolver,
          (SegmentWriter.create.addItem hK fpK (encode_sorted_u64 [1, 3, 5])).finalizeV2),
         (SegmentKind.Resolver,
          (SegmentWriter.create.addItem hK fpK (encode_sorted_u64 [3, 5, 7])).finalizeV2)] =
      some (Except.ok (writeCompacted [(hK, [1, 3, 3, 5, 5, 7])])) ∧
    Segment.get h64 fp64 (writeCompacted [(hK, [1, 3, 3, 5, 5, 7])]) K =
      some [1, 2, 0, 2, 0, 2] ∧
    decode_sorted_u64 [1, 2, 0, 2, 0, 2] = [1, 3, 3, 5, 5, 7] :=
  C2_core hK fpK hnz h64 fp64 K hh

/-- Witness for the amended C2 at hash 7, fingerprint 9. -/
theorem C2_compaction_merge_amended_witness :
    ((7 : Nat) ≠ 0 ∧ (fun (_ : List Nat) => (7 : Nat)) [0] = 7) ∧
      (compact_cmd
          [(SegmentKind.Resolver,
            (SegmentWriter.create.addItem 7 9 (encode_sorted_u64 [1, 3, 5])).finalizeV2),
           (SegmentKind.Resolver,
            (SegmentWriter.create.addItem 7 9 (encode_sorted_u64 [3, 5, 7])).finalizeV2)] =
        some (Except.ok (writeCompacted [(7, [1, 3, 3, 5, 5, 7])])) ∧
      Segment.get (fun _ => 7) (fun _ => 9) (writeCompacted [(7, [1, 3, 3, 5, 5, 7])]) [0] =
        some [1, 2, 0, 2, 0, 2] ∧
      decode_sorted_u64 [1, 2, 0, 2, 0, 2] = [1, 3, 3, 5, 5, 7]) :=
  ⟨⟨by decide, rfl⟩,
    C2_compaction_merge_amended 7 9 (by decide) (fun _ => 7) (fun _ => 9) [0] rfl⟩

end Pru
